import Mathlib

/-!
Shallow embedding of `proxy.c` (sctp_proxy)

The file embeds the four functions of `proxy.c` that carry the relay logic:

* `proxy` (the per-association thread: establishment, pump loop, cleanup),
* `parse_addrs_list` / `parse_addrs_list_port`,
* `select_a_server`,
* `main` (option handling, start-up checks, accept loop).

System calls are not executed. Every call the C code makes is written to a
log of `Action`s, and every value a call hands back (return code, received
bytes, message flags, ...) is an explicit input of the model.  `size_t`
arithmetic is done on `Nat` with an explicit reduction modulo `2^64`.
-/

namespace SctpProxy

/-! ## Constants -/

/-- `#define INITIAL_BUF_SIZE 10240`. -/
def INITIAL_BUF_SIZE : Nat := 10240

/-- `#define LISTEN_QUEUE 10`. -/
def LISTEN_QUEUE : Int := 10

/-- Number of values of a `size_t` (64-bit platform). -/
def SIZE_MOD : Nat := 2 ^ 64

/-- Largest object size the allocator hands out: `malloc`/`realloc` refuse a
request of more than `PTRDIFF_MAX` bytes. -/
def PTRDIFF_MAX : Nat := 2 ^ 63 - 1

/-- Bit masks that come from the system headers (`<sys/socket.h>`,
`<netinet/sctp.h>`); their values differ between platforms, so they are a
parameter of the model. -/
structure sctp_consts where
  MSG_EOR : Nat
  SCTP_UNORDERED : Nat
deriving DecidableEq, Repr

/-! ## Data model -/

/-- The two associations of a relay session. -/
inductive Leg where
  | client
  | server
deriving DecidableEq, Repr

/-- The leg a message received on `l` is forwarded to. -/
def Leg.other : Leg → Leg
  | Leg.client => Leg.server
  | Leg.server => Leg.client

/-- Fields of `struct sctp_initmsg`. -/
structure sctp_initmsg where
  sinit_num_ostreams : Nat
  sinit_max_instreams : Nat
  sinit_max_attempts : Nat
  sinit_max_init_timeo : Nat
deriving DecidableEq, Repr

/-- The fields of `struct sctp_status` that `proxy` reads. -/
structure sctp_status where
  sstat_instrms : Nat
  sstat_outstrms : Nat
deriving DecidableEq, Repr

/-- An endpoint address as produced by `getaddrinfo` (kept abstract: the
numeric host text and the port text it was resolved from). -/
structure sockaddr where
  host : List Char
  port : List Char
deriving DecidableEq, Repr

/-- Model of `struct proxy_info`.  A message buffer is the heap block the
pointer designates, as a map from byte index to byte value; whether an
allocation returned `NULL` is an input of the step that allocates. -/
structure proxy_info where
  ipv4only : Bool
  ipv6only : Bool
  client_fd : Int
  server_fd : Int
  local_addrs : List sockaddr
  number_local_addrs : Int
  server_addrs : List sockaddr
  number_server_addrs : Int
  client_buf : Nat → Nat
  client_buf_size : Nat
  client_buf_offset : Nat
  server_buf : Nat → Nat
  server_buf_size : Nat
  server_buf_offset : Nat

/-- One system call made by `proxy`, with the arguments that matter.  The
leg of an allocation is the leg whose messages the block receives. -/
inductive Action where
  | getsockopt_status (fd : Int)
  | malloc (leg : Leg) (size : Nat)
  | socket (inet6 : Bool)
  | setsockopt_v6only (fd : Int) (v6only : Bool)
  | setsockopt_initmsg (fd : Int) (m : sctp_initmsg)
  | sctp_bindx (fd : Int) (addrs : List sockaddr) (count : Int)
  | sctp_connectx (fd : Int) (addrs : List sockaddr) (count : Int)
  | sctp_recvmsg (leg : Leg) (fd : Int) (room : Nat) (n : Int) (data : List Nat)
      (msg_flags sinfo_stream sinfo_flags sinfo_ppid : Nat)
  | sctp_sendmsg (leg : Leg) (fd : Int) (payload : List Nat)
      (ppid flags stream : Nat)
  | realloc (leg : Leg) (size : Nat)
  | close (leg : Leg) (fd : Int)
deriving DecidableEq, Repr

/-- What the environment answers to one pass through a receive branch of the
pump loop: the result of `sctp_recvmsg` on `leg` (return value `n`, the bytes
stored at `buf + offset`, `flags`, and the three `sndrcvinfo` fields that are
read), then the return value of the `sctp_sendmsg` and the outcome of the
`realloc`, each consulted only if the branch reaches that call. -/
structure recv_event where
  leg : Leg
  n : Int
  data : List Nat
  flags : Nat
  sinfo_stream : Nat
  sinfo_flags : Nat
  sinfo_ppid : Nat
  send_ret : Int
  realloc_ok : Bool
deriving DecidableEq, Repr

/-! ## Memory helpers -/

/-- Bytes `[0, len)` of a buffer: what `sctp_sendmsg(fd, buf, len, ...)` reads. -/
def buf_read (buf : Nat → Nat) (len : Nat) : List Nat :=
  (List.range len).map buf

/-- The buffer after `data` has been stored at `buf + off`. -/
def buf_write (buf : Nat → Nat) (off : Nat) (data : List Nat) : Nat → Nat :=
  fun i => if off ≤ i ∧ i < off + data.length then data.getD (i - off) 0 else buf i

/-- The `size_t` expression `size - offset` (wraps when `offset > size`). -/
def size_sub (size offset : Nat) : Nat :=
  (size + SIZE_MOD - offset % SIZE_MOD) % SIZE_MOD

/-- The `size_t` update `offset += n` for a positive `ssize_t n`. -/
def size_add (offset : Nat) (n : Int) : Nat :=
  (offset + n.toNat) % SIZE_MOD

/-- The `size_t` update `size *= 2`. -/
def size_double (size : Nat) : Nat :=
  (size * 2) % SIZE_MOD

/-- Does `realloc(ptr, size)` return a block?  It does when the environment
has the memory (`ok`) and the request does not exceed `PTRDIFF_MAX`. -/
def realloc_succeeds (size : Nat) (ok : Bool) : Bool :=
  ok && decide (size ≤ PTRDIFF_MAX)

/-! ## The pump loop of `proxy` -/

/-- Result of one receive branch: the calls made, and the session state if
the loop goes on (`none` is `goto cleanup`). -/
structure branch_result where
  log : List Action
  next : Option proxy_info

/-- Lines 166-205: the branch taken when `client_fd` is readable. -/
def recv_client (K : sctp_consts) (info : proxy_info) (ev : recv_event) : branch_result :=
  let room := size_sub info.client_buf_size info.client_buf_offset
  let rcv := Action.sctp_recvmsg Leg.client info.client_fd room ev.n ev.data
    ev.flags ev.sinfo_stream ev.sinfo_flags ev.sinfo_ppid
  if ev.n < -0 then
    ⟨[rcv], none⟩
  else if ev.n = 0 then
    ⟨[rcv], none⟩
  else
    let buf := buf_write info.client_buf info.client_buf_offset ev.data
    let offset := size_add info.client_buf_offset ev.n
    if ev.flags &&& K.MSG_EOR ≠ 0 then
      let snd := Action.sctp_sendmsg Leg.server info.server_fd (buf_read buf offset)
        ev.sinfo_ppid (ev.sinfo_flags &&& K.SCTP_UNORDERED) ev.sinfo_stream
      if ev.send_ret < 0 then
        ⟨[rcv, snd], none⟩
      else
        ⟨[rcv, snd], some { info with client_buf := buf, client_buf_offset := 0 }⟩
    else
      if offset = info.client_buf_size then
        let size := size_double info.client_buf_size
        if realloc_succeeds size ev.realloc_ok then
          ⟨[rcv, Action.realloc Leg.client size],
            some { info with client_buf := buf, client_buf_offset := offset,
                             client_buf_size := size }⟩
        else
          ⟨[rcv, Action.realloc Leg.client size], none⟩
      else
        ⟨[rcv], some { info with client_buf := buf, client_buf_offset := offset }⟩

/-- Lines 208-247: the branch taken when `server_fd` is readable. -/
def recv_server (K : sctp_consts) (info : proxy_info) (ev : recv_event) : branch_result :=
  let room := size_sub info.server_buf_size info.server_buf_offset
  let rcv := Action.sctp_recvmsg Leg.server info.server_fd room ev.n ev.data
    ev.flags ev.sinfo_stream ev.sinfo_flags ev.sinfo_ppid
  if ev.n < -0 then
    ⟨[rcv], none⟩
  else if ev.n = 0 then
    ⟨[rcv], none⟩
  else
    let buf := buf_write info.server_buf info.server_buf_offset ev.data
    let offset := size_add info.server_buf_offset ev.n
    if ev.flags &&& K.MSG_EOR ≠ 0 then
      let snd := Action.sctp_sendmsg Leg.client info.client_fd (buf_read buf offset)
        ev.sinfo_ppid (ev.sinfo_flags &&& K.SCTP_UNORDERED) ev.sinfo_stream
      if ev.send_ret < 0 then
        ⟨[rcv, snd], none⟩
      else
        ⟨[rcv, snd], some { info with server_buf := buf, server_buf_offset := 0 }⟩
    else
      if offset = info.server_buf_size then
        let size := size_double info.server_buf_size
        if realloc_succeeds size ev.realloc_ok then
          ⟨[rcv, Action.realloc Leg.server size],
            some { info with server_buf := buf, server_buf_offset := offset,
                             server_buf_size := size }⟩
        else
          ⟨[rcv, Action.realloc Leg.server size], none⟩
      else
        ⟨[rcv], some { info with server_buf := buf, server_buf_offset := offset }⟩

/-- One receive branch, chosen by the descriptor that `select` reported. -/
def pump_step (K : sctp_consts) (info : proxy_info) (ev : recv_event) : branch_result :=
  match ev.leg with
  | Leg.client => recv_client K info ev
  | Leg.server => recv_server K info ev

/-- Outcome of the pump loop on a finite trace of receive events. -/
structure pump_result where
  log : List Action
  info : proxy_info
  closed : Bool

/-- The `for (;;)` loop of lines 153-249, run over a trace of receive events
(an iteration in which both descriptors are readable contributes a client
event followed by a server event).  The loop stops at the first
`goto cleanup`; when the trace is exhausted the session is still running. -/
def pump (K : sctp_consts) : proxy_info → List recv_event → pump_result
  | info, [] => ⟨[], info, false⟩
  | info, ev :: rest =>
    match (pump_step K info ev).next with
    | none => ⟨(pump_step K info ev).log, info, true⟩
    | some info1 =>
      let r := pump K info1 rest
      ⟨(pump_step K info ev).log ++ r.log, r.info, r.closed⟩

/-- One return of `select` (line 164): for each descriptor, whether it is
reported readable and, if so, what the environment answers in its branch. -/
structure wake where
  client : Option recv_event
  server : Option recv_event
deriving DecidableEq, Repr

/-- The `for (;;)` loop of lines 153-249, one `wake` per iteration: the
client branch if `FD_ISSET(client_fd)`, then the server branch if
`FD_ISSET(server_fd)`, leaving the loop at the first `goto cleanup`. -/
def for_loop (K : sctp_consts) : proxy_info → List wake → pump_result
  | info, [] => ⟨[], info, false⟩
  | info, w :: rest =>
    let c : branch_result :=
      match w.client with
      | none => ⟨[], some info⟩
      | some ev => recv_client K info ev
    match c.next with
    | none => ⟨c.log, info, true⟩
    | some info1 =>
      let s : branch_result :=
        match w.server with
        | none => ⟨[], some info1⟩
        | some ev => recv_server K info1 ev
      match s.next with
      | none => ⟨c.log ++ s.log, info1, true⟩
      | some info2 =>
        let r := for_loop K info2 rest
        ⟨c.log ++ s.log ++ r.log, r.info, r.closed⟩

/-- The receive events of one iteration, in the order the branches run. -/
def wake_events (w : wake) : List recv_event :=
  (match w.client with
   | none => []
   | some ev => [{ ev with leg := Leg.client }]) ++
  (match w.server with
   | none => []
   | some ev => [{ ev with leg := Leg.server }])

/-- The trace of receive events of a sequence of iterations. -/
def trace_of : List wake → List recv_event
  | [] => []
  | w :: rest => wake_events w ++ trace_of rest

/-- The `cleanup:` label, lines 250-261: the descriptors that are closed
(memory release is not logged). -/
def cleanup (info : proxy_info) : List Action :=
  (if info.server_fd ≥ 0 then [Action.close Leg.server info.server_fd] else []) ++
  (if info.client_fd ≥ 0 then [Action.close Leg.client info.client_fd] else [])

/-! ## Establishment and the whole of `proxy` -/

/-- What the environment answers during establishment (lines 105-151): the
return value of each call, the status `getsockopt` fills in, and the content
of the two freshly allocated blocks. -/
structure estab_env where
  getsockopt_ret : Int
  status : sctp_status
  malloc_client_ok : Bool
  client_block : Nat → Nat
  malloc_server_ok : Bool
  server_block : Nat → Nat
  socket_ret : Int
  setsockopt_v6only_ret : Int
  setsockopt_initmsg_ret : Int
  sctp_bindx_ret : Int
  sctp_connectx_ret : Int

/-- Lines 137-139: `memset` of the init message, then the two assignments. -/
def server_initmsg (status : sctp_status) : sctp_initmsg :=
  let zeroed : sctp_initmsg := ⟨0, 0, 0, 0⟩
  { zeroed with sinit_num_ostreams := status.sstat_instrms,
                sinit_max_instreams := status.sstat_outstrms }

/-- Result of establishment: the calls made, the session state reached, and
whether control fell through to the pump loop (`ok`) or took a
`goto cleanup`. -/
structure estab_result where
  log : List Action
  info : proxy_info
  ok : Bool

/-- Lines 105-151 of `proxy`. -/
def establish (info : proxy_info) (env : estab_env) : estab_result :=
  let a1 := Action.getsockopt_status info.client_fd
  if env.getsockopt_ret < 0 then ⟨[a1], info, false⟩ else
  let info1 := { info with client_buf_size := INITIAL_BUF_SIZE, client_buf_offset := 0,
                           client_buf := env.client_block }
  let a2 := Action.malloc Leg.client info1.client_buf_size
  if !env.malloc_client_ok then ⟨[a1, a2], info1, false⟩ else
  let info2 := { info1 with server_buf_size := INITIAL_BUF_SIZE, server_buf_offset := 0,
                            server_buf := env.server_block }
  let a3 := Action.malloc Leg.server info2.server_buf_size
  if !env.malloc_server_ok then ⟨[a1, a2, a3], info2, false⟩ else
  let info3 := { info2 with server_fd := env.socket_ret }
  let a4 := Action.socket (!info.ipv4only)
  if info3.server_fd < 0 then ⟨[a1, a2, a3, a4], info3, false⟩ else
  let l4 := [a1, a2, a3, a4]
  let v6 := if info.ipv4only = false then [Action.setsockopt_v6only info3.server_fd info.ipv6only] else []
  if info.ipv4only = false ∧ env.setsockopt_v6only_ret < 0 then ⟨l4 ++ v6, info3, false⟩ else
  let a6 := Action.setsockopt_initmsg info3.server_fd (server_initmsg env.status)
  if env.setsockopt_initmsg_ret < 0 then ⟨l4 ++ v6 ++ [a6], info3, false⟩ else
  let a7 := Action.sctp_bindx info3.server_fd info.local_addrs info.number_local_addrs
  if env.sctp_bindx_ret < 0 then ⟨l4 ++ v6 ++ [a6, a7], info3, false⟩ else
  let a8 := Action.sctp_connectx info3.server_fd info.server_addrs info.number_server_addrs
  if env.sctp_connectx_ret < 0 then ⟨l4 ++ v6 ++ [a6, a7, a8], info3, false⟩ else
  ⟨l4 ++ v6 ++ [a6, a7, a8], info3, true⟩

/-- Result of running `proxy`: every call made, and whether the function
returned (through `cleanup`) within the given trace. -/
structure proxy_result where
  log : List Action
  returned : Bool
deriving DecidableEq, Repr

/-- The thread function `proxy`: establishment, then the pump loop over the
trace, then `cleanup` once a `goto cleanup` is taken.  The descriptors are
not written by the loop, so `cleanup` sees the ones establishment left. -/
def proxy (K : sctp_consts) (info : proxy_info) (env : estab_env)
    (trace : List recv_event) : proxy_result :=
  let e := establish info env
  if e.ok then
    let p := pump K e.info trace
    if p.closed then ⟨e.log ++ p.log ++ cleanup p.info, true⟩
    else ⟨e.log ++ p.log, false⟩
  else ⟨e.log ++ cleanup e.info, true⟩

/-! ## Address lists -/

/-- Address family requested from `getaddrinfo`. -/
inductive addr_family where
  | AF_INET
  | AF_INET6
deriving DecidableEq, Repr

/-- The `hints` built at lines 288-299 (socket type, protocol and the two
numeric flags are the same on every call). -/
structure addrinfo_hints where
  ai_family : addr_family
  v4mapped : Bool
deriving DecidableEq, Repr

/-- Number of `','` characters, plus one: the loop of lines 276-281. -/
def count_addrs : List Char → Int
  | [] => 1
  | c :: cs => if c = ',' then count_addrs cs + 1 else count_addrs cs

/-- The successive non-NULL results of `strtok(s, ",")`, `strtok(NULL, ",")`,
...: `strtok` skips every leading delimiter before a token, so an empty field
yields no token.  `cur` is the token being scanned, reversed. -/
def strtok_tokens : List Char → List Char → List (List Char)
  | [], cur => if cur = [] then [] else [cur.reverse]
  | c :: cs, cur =>
    if c = ',' then
      if cur = [] then strtok_tokens cs [] else cur.reverse :: strtok_tokens cs []
    else strtok_tokens cs (c :: cur)

/-- The loop of lines 301-308 over the tokens: the addresses copied to the
output array so far, and whether every `getaddrinfo` succeeded. -/
def resolve_tokens (getaddrinfo : List Char → List Char → addrinfo_hints → Option sockaddr)
    (port : List Char) (hints : addrinfo_hints) : List (List Char) → List sockaddr × Bool
  | [] => ([], true)
  | addr :: rest =>
    match getaddrinfo addr port hints with
    | none => ([], false)
    | some sa =>
      let r := resolve_tokens getaddrinfo port hints rest
      (sa :: r.1, r.2)

/-- Model of `parse_addrs_list`: the return value and the addresses written
to `*addrs`.  A `NULL` string is `none`. -/
def parse_addrs_list (getaddrinfo : List Char → List Char → addrinfo_hints → Option sockaddr)
    (addr_list : Option (List Char)) (port : Option (List Char))
    (ipv4only ipv6only : Bool) : Int × List sockaddr :=
  match addr_list, port with
  | some al, some p =>
    let number_local_addrs := count_addrs al
    let hints : addrinfo_hints :=
      ⟨if ipv4only then addr_family.AF_INET else addr_family.AF_INET6,
       !ipv4only && !ipv6only⟩
    let r := resolve_tokens getaddrinfo p hints (strtok_tokens al [])
    if r.2 then (number_local_addrs, r.1) else (-1, r.1)
  | _, _ => (-1, [])

/-- The effect of `strrchr(s, ':')` followed by `*last_colon = 0`: the text
before the last colon and the text after it; `none` when there is no colon. -/
def split_last_colon : List Char → Option (List Char × List Char)
  | [] => none
  | c :: cs =>
    match split_last_colon cs with
    | some (a, b) => some (c :: a, b)
    | none => if c = ':' then some ([], cs) else none

/-- Model of `parse_addrs_list_port`. -/
def parse_addrs_list_port (getaddrinfo : List Char → List Char → addrinfo_hints → Option sockaddr)
    (addr_list : Option (List Char)) (ipv4only ipv6only : Bool) : Int × List sockaddr :=
  match addr_list with
  | none => (-1, [])
  | some al =>
    match split_last_colon al with
    | none => (-1, [])
    | some (hosts, port) => parse_addrs_list getaddrinfo (some hosts) (some port) ipv4only ipv6only

/-! ## Backend selection -/

/-- Model of `struct server_info`. -/
structure server_info where
  server_addrs : List sockaddr
  number_addrs : Int
deriving DecidableEq, Repr

/-- What one call of `select_a_server` does: the index at which the array is
read, the element found there (`none` when the index is outside the array),
and the value of the static cursor afterwards. -/
structure select_result where
  index : Int
  entry : Option server_info
  cursor : Int
deriving DecidableEq, Repr

/-- Model of `select_a_server`; `i` is the value of the function's
`static int i` on entry. -/
def select_a_server (server_infos : List server_info) (number_servers : Int) (i : Int) :
    select_result :=
  let i1 := if i ≥ number_servers then 0 else i
  ⟨i1, if 0 ≤ i1 then server_infos[i1.toNat]? else none, i1 + 1⟩

/-- The results of `m` sequential calls, the cursor starting at `i`. -/
def select_calls (server_infos : List server_info) (number_servers : Int) :
    Int → Nat → List select_result
  | _, 0 => []
  | i, m + 1 =>
    let r := select_a_server server_infos number_servers i
    r :: select_calls server_infos number_servers r.cursor m

/-! ## `main` -/

/-- What the environment answers to `main` before the accept loop: `strtol`
on an option argument, the return value of each call, and the address
`getaddrinfo` resolves a numeric host and port to (`none` when it fails). -/
structure main_env where
  strtol : List Char → Int
  socket_ret : Int
  setsockopt_v6only_ret : Int
  setsockopt_initmsg_ret : Int
  getaddrinfo : List Char → List Char → addrinfo_hints → Option sockaddr
  sctp_bindx_ret : Int
  listen_ret : Int

/-- The locals of `main` that the option loop writes. -/
structure main_locals where
  ipv4only : Bool
  ipv6only : Bool
  i_streams : Nat
  o_streams : Nat
  L_arg : Option (List Char)
  X_arg : Option (List Char)
  S_args : List (List Char)
  number_servers : Int
deriving DecidableEq, Repr

/-- Lines 364-371: the initial values. -/
def main_init : main_locals :=
  ⟨false, false, 1, 1, none, none, [], 0⟩

/-- The `switch` of lines 374-429 for one result `c` of `getopt` with its
`optarg`; `Except.error 1` is `return (1)`. -/
def option_case (env : main_env) (st : main_locals) (c : Char) (optarg : List Char) :
    Except Int main_locals :=
  if c = 'i' then
    let value := env.strtol optarg
    if 0 < value ∧ value < 65536 then Except.ok { st with i_streams := value.toNat }
    else Except.error 1
  else if c = 'L' then
    if st.L_arg ≠ none then Except.error 1
    else Except.ok { st with L_arg := some optarg }
  else if c = 'o' then
    let value := env.strtol optarg
    if 0 < value ∧ value < 65536 then Except.ok { st with o_streams := value.toNat }
    else Except.error 1
  else if c = 'S' then
    Except.ok { st with S_args := st.S_args ++ [optarg], number_servers := st.number_servers + 1 }
  else if c = 'X' then
    if st.X_arg ≠ none then Except.error 1
    else Except.ok { st with X_arg := some optarg }
  else if c = '4' then
    if st.ipv6only then Except.error 1 else Except.ok { st with ipv4only := true }
  else if c = '6' then
    if st.ipv4only then Except.error 1 else Except.ok { st with ipv6only := true }
  else Except.error 1

/-- The `while ((c = getopt(...)) != -1)` loop over the options `getopt`
reports, in order. -/
def parse_options (env : main_env) : main_locals → List (Char × List Char) →
    Except Int main_locals
  | st, [] => Except.ok st
  | st, (c, optarg) :: rest =>
    match option_case env st c optarg with
    | Except.error e => Except.error e
    | Except.ok st1 => parse_options env st1 rest

/-- The loop of lines 466-472 over `S_args[0 .. number_servers)`. -/
def parse_servers (env : main_env) (ipv4only ipv6only : Bool) :
    List (List Char) → Except Int (List server_info)
  | [] => Except.ok []
  | s :: rest =>
    let r := parse_addrs_list_port env.getaddrinfo (some s) ipv4only ipv6only
    if r.1 ≤ 0 then Except.error 1
    else
      match parse_servers env ipv4only ipv6only rest with
      | Except.error e => Except.error e
      | Except.ok l => Except.ok (⟨r.2, r.1⟩ :: l)

/-- The locals of `main` that are live in the accept loop. -/
structure main_config where
  ipv4only : Bool
  ipv6only : Bool
  local_addrs : List sockaddr
  number_local_addrs : Int
  server_infos : List server_info
  number_servers : Int
deriving DecidableEq, Repr

/-- Lines 364-476 of `main`: everything before the accept loop.
`Except.error 1` is `return (1)`; `Except.ok cfg` means that control reaches
the `for (;;)` of line 477.  A failing `setsockopt(IPV6_V6ONLY)` on the
listening socket only prints a diagnostic (lines 436-440), so its result
does not appear. -/
def main_startup (env : main_env) (opts : List (Char × List Char)) : Except Int main_config :=
  match parse_options env main_init opts with
  | Except.error e => Except.error e
  | Except.ok st =>
    if env.socket_ret < 0 then Except.error 1 else
    if env.setsockopt_initmsg_ret < 0 then Except.error 1 else
    let l := parse_addrs_list_port env.getaddrinfo st.L_arg st.ipv4only st.ipv6only
    if ¬ (l.1 > 0) then Except.error 1 else
    if env.sctp_bindx_ret < 0 then Except.error 1 else
    let x := parse_addrs_list env.getaddrinfo st.X_arg (some ['0']) st.ipv4only st.ipv6only
    if x.1 ≤ 0 then Except.error 1 else
    match parse_servers env st.ipv4only st.ipv6only st.S_args with
    | Except.error e => Except.error e
    | Except.ok server_infos =>
      if env.listen_ret < 0 then Except.error 1 else
      Except.ok ⟨st.ipv4only, st.ipv6only, x.2, x.1, server_infos, st.number_servers⟩

/-- What the environment answers in one iteration of the accept loop. -/
structure accept_event where
  accept_ret : Int
  pthread_create_ret : Int
deriving DecidableEq, Repr

/-- What the accept loop did on a finite trace: every call of
`select_a_server` with the `number_servers` it was given, the `proxy_info`
of every thread started, and whether every `server_info` dereferenced lay
inside the array. -/
structure accept_outcome where
  selects : List (Int × select_result)
  started : List proxy_info
  defined : Bool

/-- The `proxy_info` of lines 478-490 (`calloc`, then the assignments). -/
def new_proxy_info (cfg : main_config) (client_fd : Int) (si : server_info) : proxy_info :=
  { ipv4only := cfg.ipv4only, ipv6only := cfg.ipv6only,
    client_fd := client_fd, server_fd := -1,
    local_addrs := cfg.local_addrs, number_local_addrs := cfg.number_local_addrs,
    server_addrs := si.server_addrs, number_server_addrs := si.number_addrs,
    client_buf := fun _ => 0, client_buf_size := 0, client_buf_offset := 0,
    server_buf := fun _ => 0, server_buf_size := 0, server_buf_offset := 0 }

/-- The accept loop of lines 477-497 over a finite trace; `i` is the static
cursor of `select_a_server`. -/
def accept_loop (cfg : main_config) : Int → List accept_event → accept_outcome
  | _, [] => ⟨[], [], true⟩
  | i, ev :: rest =>
    if ev.accept_ret < 0 then accept_loop cfg i rest
    else
      let r := select_a_server cfg.server_infos cfg.number_servers i
      match r.entry with
      | none => ⟨[(cfg.number_servers, r)], [], false⟩
      | some si =>
        let o := accept_loop cfg r.cursor rest
        let pi := new_proxy_info cfg ev.accept_ret si
        ⟨(cfg.number_servers, r) :: o.selects,
         if ev.pthread_create_ret ≠ 0 then o.started else pi :: o.started,
         o.defined⟩

/-! ## The pump loop: per-leg view

`recv_client` and `recv_server` are the same code on the two halves of
`proxy_info`.  The accessors below select a half by leg, and
`pump_step_eq` rewrites either branch in terms of them. -/

/-- Descriptor of a leg. -/
def leg_fd (l : Leg) (info : proxy_info) : Int :=
  match l with
  | Leg.client => info.client_fd
  | Leg.server => info.server_fd

/-- Buffer that receives from leg `l`. -/
def leg_buf (l : Leg) (info : proxy_info) : Nat → Nat :=
  match l with
  | Leg.client => info.client_buf
  | Leg.server => info.server_buf

/-- Capacity of the buffer that receives from leg `l`. -/
def leg_size (l : Leg) (info : proxy_info) : Nat :=
  match l with
  | Leg.client => info.client_buf_size
  | Leg.server => info.server_buf_size

/-- Offset of the buffer that receives from leg `l`. -/
def leg_offset (l : Leg) (info : proxy_info) : Nat :=
  match l with
  | Leg.client => info.client_buf_offset
  | Leg.server => info.server_buf_offset

/-- Room handed to `sctp_recvmsg` on leg `l`. -/
def leg_room (l : Leg) (info : proxy_info) : Nat :=
  size_sub (leg_size l info) (leg_offset l info)

/-- Update of the three buffer fields of leg `l`. -/
def leg_update (l : Leg) (info : proxy_info) (buf : Nat → Nat) (offset size : Nat) :
    proxy_info :=
  match l with
  | Leg.client =>
    { info with client_buf := buf, client_buf_offset := offset, client_buf_size := size }
  | Leg.server =>
    { info with server_buf := buf, server_buf_offset := offset, server_buf_size := size }

/-- The receive call logged by a branch. -/
def recv_action (info : proxy_info) (ev : recv_event) : Action :=
  Action.sctp_recvmsg ev.leg (leg_fd ev.leg info) (leg_room ev.leg info) ev.n ev.data
    ev.flags ev.sinfo_stream ev.sinfo_flags ev.sinfo_ppid

/-- The send call logged by a branch that forwards. -/
def send_action (info : proxy_info) (ev : recv_event) (K : sctp_consts) : Action :=
  Action.sctp_sendmsg ev.leg.other (leg_fd ev.leg.other info)
    (buf_read (buf_write (leg_buf ev.leg info) (leg_offset ev.leg info) ev.data)
      (size_add (leg_offset ev.leg info) ev.n))
    ev.sinfo_ppid (ev.sinfo_flags &&& K.SCTP_UNORDERED) ev.sinfo_stream

/-! ## Vocabulary for statements about the pump loop -/

/-- The events the loop processes, each paired with the state the loop is in
when it processes it (events after a `goto cleanup` are never processed). -/
def visited (K : sctp_consts) : proxy_info → List recv_event → List (proxy_info × recv_event)
  | _, [] => []
  | info, ev :: rest =>
    (info, ev) ::
      match (pump_step K info ev).next with
      | none => []
      | some info1 => visited K info1 rest

/-- Predicate `P` holds of every event the loop processes, in the state the
loop is in when it processes it. -/
def along (K : sctp_consts) (P : proxy_info → recv_event → Prop)
    (info : proxy_info) (trace : List recv_event) : Prop :=
  ∀ p ∈ visited K info trace, P p.1 p.2

instance along_decidable (K : sctp_consts) (P : proxy_info → recv_event → Prop)
    [∀ i e, Decidable (P i e)] (info : proxy_info) (trace : List recv_event) :
    Decidable (along K P info trace) := by
  unfold along
  infer_instance

/-- The receive returns at most the room it was given. -/
def within_room (info : proxy_info) (ev : recv_event) : Prop :=
  ev.n ≤ (leg_room ev.leg info : Int)

instance within_room_decidable (info : proxy_info) (ev : recv_event) :
    Decidable (within_room info ev) := by
  unfold within_room
  infer_instance

/-- The receive delivers a chunk: a positive byte count, at most the room it
was given, which is the number of bytes stored. -/
def delivers_chunk (info : proxy_info) (ev : recv_event) : Prop :=
  0 < ev.n ∧ ev.n ≤ (leg_room ev.leg info : Int) ∧ (ev.data.length : Int) = ev.n

instance delivers_chunk_decidable (info : proxy_info) (ev : recv_event) :
    Decidable (delivers_chunk info ev) := by
  unfold delivers_chunk
  infer_instance

/-- A message as seen by `sctp_sendmsg`. -/
structure message where
  payload : List Nat
  stream : Nat
  unordered : Nat
  ppid : Nat
deriving DecidableEq, Repr

/-- A chunk as delivered by `sctp_recvmsg`. -/
structure chunk where
  data : List Nat
  msg_flags : Nat
  sinfo_stream : Nat
  sinfo_flags : Nat
  sinfo_ppid : Nat
deriving DecidableEq, Repr

/-- The chunks received on leg `l` (receives with a positive result), in
order, read off the log. -/
def received_on (l : Leg) : List Action → List chunk
  | [] => []
  | Action.sctp_recvmsg l1 _ _ n data f s fl p :: rest =>
    if l1 = l ∧ 0 < n then ⟨data, f, s, fl, p⟩ :: received_on l rest
    else received_on l rest
  | _ :: rest => received_on l rest

/-- The `sctp_sendmsg` calls made on leg `l`, in order, read off the log. -/
def sent_on (l : Leg) : List Action → List message
  | [] => []
  | Action.sctp_sendmsg l1 _ payload ppid flags stream :: rest =>
    if l1 = l then ⟨payload, stream, flags, ppid⟩ :: sent_on l rest
    else sent_on l rest
  | _ :: rest => sent_on l rest

/-- Is the end-of-record bit set in the chunk's message flags? -/
def chunk.eor (K : sctp_consts) (c : chunk) : Bool :=
  c.msg_flags &&& K.MSG_EOR ≠ 0

/-- The relay contract in the words of the specification: one message per
end-of-record chunk, whose payload is everything received since the previous
end-of-record (`pending`, then this chunk) and whose stream number,
unordered bit and payload identifier are those of the end-of-record chunk;
a chunk without end-of-record is only accumulated. -/
def relayed (K : sctp_consts) : List Nat → List chunk → List message
  | _, [] => []
  | pending, c :: rest =>
    if c.eor K then
      ⟨pending ++ c.data, c.sinfo_stream, c.sinfo_flags &&& K.SCTP_UNORDERED, c.sinfo_ppid⟩ ::
        relayed K [] rest
    else relayed K (pending ++ c.data) rest

/-- Buffer bounds at the head of the loop for the buffer of leg `l`: there is
room left, and the block has a size the allocator can hand out. -/
def leg_ok (l : Leg) (info : proxy_info) : Prop :=
  leg_offset l info < leg_size l info ∧ leg_size l info ≤ PTRDIFF_MAX

/-- The room argument of every `sctp_recvmsg` call in the log, in order. -/
def recv_rooms : List Action → List Nat
  | [] => []
  | Action.sctp_recvmsg _ _ room _ _ _ _ _ _ :: rest => room :: recv_rooms rest
  | _ :: rest => recv_rooms rest

/-! ## Sample inputs -/

/-- Linux values of the two bit masks. -/
def linux_consts : sctp_consts := ⟨0x80, 1⟩

/-- A `proxy_info` as `main` hands it to a thread (client descriptor 5). -/
def sample_info : proxy_info :=
  new_proxy_info ⟨false, false, [⟨['a'], ['0']⟩], 1, [⟨[⟨['b'], ['7']⟩], 1⟩], 1⟩ 5
    ⟨[⟨['b'], ['7']⟩], 1⟩

/-- An environment in which every establishment step succeeds (server
descriptor 6, client streams 3 in / 4 out). -/
def sample_env : estab_env :=
  { getsockopt_ret := 0, status := ⟨3, 4⟩,
    malloc_client_ok := true, client_block := fun _ => 0,
    malloc_server_ok := true, server_block := fun _ => 0,
    socket_ret := 6, setsockopt_v6only_ret := 0, setsockopt_initmsg_ret := 0,
    sctp_bindx_ret := 0, sctp_connectx_ret := 0 }

/-- A receive event on `leg` delivering `data` with message flags `flags`,
stream 2, `sinfo_flags` 1, payload identifier 9; send and realloc succeed. -/
def sample_chunk (leg : Leg) (data : List Nat) (flags : Nat) : recv_event :=
  ⟨leg, data.length, data, flags, 2, 1, 9, 0, true⟩

/-- The chunk a receive event delivers. -/
def chunk_of (ev : recv_event) : chunk :=
  ⟨ev.data, ev.flags, ev.sinfo_stream, ev.sinfo_flags, ev.sinfo_ppid⟩

/-- The chunks of the events the loop processes on leg `l`, in order. -/
def chunks_processed (K : sctp_consts) (l : Leg) (info : proxy_info)
    (trace : List recv_event) : List chunk :=
  (((visited K info trace).map Prod.snd).filter (fun ev => ev.leg = l)).map chunk_of

/-- A trace with a two-chunk client message, a server message in between,
and a second client message. -/
def sample_trace : List recv_event :=
  [sample_chunk Leg.client [1, 2, 3] 0, sample_chunk Leg.server [7] 0x80,
   sample_chunk Leg.client [4, 5] 0x80, sample_chunk Leg.client [6] 0x80]

/-- The full sequence of establishment calls, as made when none fails. -/
def establish_steps (info : proxy_info) (env : estab_env) : List Action :=
  [Action.getsockopt_status info.client_fd,
   Action.malloc Leg.client INITIAL_BUF_SIZE,
   Action.malloc Leg.server INITIAL_BUF_SIZE,
   Action.socket (!info.ipv4only)] ++
  (if info.ipv4only = false then [Action.setsockopt_v6only env.socket_ret info.ipv6only]
   else []) ++
  [Action.setsockopt_initmsg env.socket_ret (server_initmsg env.status),
   Action.sctp_bindx env.socket_ret info.local_addrs info.number_local_addrs,
   Action.sctp_connectx env.socket_ret info.server_addrs info.number_server_addrs]

/-- One of the establishment steps fails: reading the client's stream counts,
allocating either buffer, opening the server socket, setting the IPv6 mode
(a step taken only when `ipv4only` is not set), setting the stream counts,
binding the local addresses, connecting to the backend. -/
def some_step_fails (info : proxy_info) (env : estab_env) : Prop :=
  env.getsockopt_ret < 0 ∨ env.malloc_client_ok = false ∨ env.malloc_server_ok = false ∨
  env.socket_ret < 0 ∨ (info.ipv4only = false ∧ env.setsockopt_v6only_ret < 0) ∨
  env.setsockopt_initmsg_ret < 0 ∨ env.sctp_bindx_ret < 0 ∨ env.sctp_connectx_ret < 0

instance some_step_fails_decidable (info : proxy_info) (env : estab_env) :
    Decidable (some_step_fails info env) := by
  unfold some_step_fails
  infer_instance

/-- An environment in which the connect to the backend fails. -/
def connect_fails_env : estab_env :=
  { sample_env with sctp_connectx_ret := -1 }

/-- The bytes of a sequence of chunks, concatenated in order. -/
def concat_data : List recv_event → List Nat
  | [] => []
  | ev :: rest => ev.data ++ concat_data rest

/-- An environment for `main` in which every call succeeds and every numeric
host resolves (listening descriptor 3). -/
def sample_main_env : main_env :=
  { strtol := fun _ => 0, socket_ret := 3, setsockopt_v6only_ret := 0,
    setsockopt_initmsg_ret := 0, getaddrinfo := fun addr port _ => some ⟨addr, port⟩,
    sctp_bindx_ret := 0, listen_ret := 0 }

/-- The options of the command line `proxy -L ::1:5001 -X ::1`, which has no
`-S` option. -/
def no_server_opts : List (Char × List Char) :=
  [('L', [':', ':', '1', ':', '5', '0', '0', '1']), ('X', [':', ':', '1'])]

/-- The first two chunks of a 25600-byte client message: each fills the room
it is given (10240 bytes at offset 0, then 10240 bytes at offset 10240). -/
def big_body : List recv_event :=
  [sample_chunk Leg.client (List.replicate 10240 7) 0,
   sample_chunk Leg.client (List.replicate 10240 8) 0]

/-- The last chunk of the 25600-byte message: 5120 bytes with end-of-record. -/
def big_last : recv_event :=
  sample_chunk Leg.client (List.replicate 5120 9) 0x80

/-! ## Backend selection: round robin -/

theorem select_a_server_in_range (server_infos : List server_info) (c : Nat)
    (hc : c ≤ server_infos.length) :
    select_a_server server_infos server_infos.length c =
      ⟨((c % server_infos.length : Nat) : Int),
       server_infos[c % server_infos.length]?,
       ((c % server_infos.length + 1 : Nat) : Int)⟩ := by
  unfold select_a_server
  by_cases h : c = server_infos.length
  · have h1 : ((c : Nat) : Int) ≥ ((server_infos.length : Nat) : Int) := by omega
    simp only [h1, if_true]
    subst h
    simp
  · have hlt : c < server_infos.length := by omega
    have h1 : ¬ (((c : Nat) : Int) ≥ ((server_infos.length : Nat) : Int)) := by omega
    simp only [h1, if_false, Nat.mod_eq_of_lt hlt]
    simp

theorem select_calls_get (server_infos : List server_info)
    (hK : 1 ≤ server_infos.length) :
    ∀ (m n c : Nat), c ≤ server_infos.length → n < m →
      (select_calls server_infos server_infos.length c m)[n]? =
        some ⟨(((c + n) % server_infos.length : Nat) : Int),
              server_infos[(c + n) % server_infos.length]?,
              (((c + n) % server_infos.length + 1 : Nat) : Int)⟩ := by
  intro m
  induction m with
  | zero => intro n c _ hn; omega
  | succ m ih =>
    intro n c hc hn
    have hpos : 0 < server_infos.length := hK
    cases n with
    | zero =>
      simp only [select_calls, List.getElem?_cons_zero, Nat.add_zero]
      rw [select_a_server_in_range server_infos c hc]
    | succ n =>
      simp only [select_calls, List.getElem?_cons_succ]
      rw [select_a_server_in_range server_infos c hc]
      have hlt : c % server_infos.length + 1 ≤ server_infos.length :=
        Nat.mod_lt c hpos
      have := ih n (c % server_infos.length + 1) hlt (by omega)
      simp only at this ⊢
      rw [this]
      have e : (c % server_infos.length + 1 + n) % server_infos.length
          = (c + (n + 1)) % server_infos.length := by
        rw [show c % server_infos.length + 1 + n = c % server_infos.length + (n + 1) by omega,
          Nat.add_mod, Nat.mod_mod, ← Nat.add_mod]
      rw [e]

theorem select_calls_length (server_infos : List server_info) (ns : Int) :
    ∀ (m : Nat) (c : Int), (select_calls server_infos ns c m).length = m := by
  intro m
  induction m with
  | zero => intro c; rfl
  | succ m ih => intro c; simp [select_calls, ih]

/-- C2: with `K ≥ 1` backends and the static cursor starting at `0`, the
`n`-th (0-based) of any number of sequential calls of `select_a_server` reads
the array at index `n mod K`, which lies inside the array, and returns the
backend stored there; for `K ≥ 3` the indices read by `K + 3` sequential
calls are `0, 1, ..., K-1, 0, 1, 2`. -/
theorem select_a_server_round_robin (server_infos : List server_info)
    (hK : 1 ≤ server_infos.length) :
    (∀ m n : Nat, n < m →
      ∃ b : server_info,
        server_infos[n % server_infos.length]? = some b ∧
        n % server_infos.length < server_infos.length ∧
        (select_calls server_infos server_infos.length 0 m)[n]? =
          some ⟨((n % server_infos.length : Nat) : Int), some b,
                ((n % server_infos.length + 1 : Nat) : Int)⟩) ∧
    (3 ≤ server_infos.length →
      (select_calls server_infos server_infos.length 0 (server_infos.length + 3)).map
          select_result.index =
        (List.range server_infos.length).map Int.ofNat ++ [0, 1, 2]) := by
  have hpos : 0 < server_infos.length := hK
  constructor
  · intro m n hn
    have hlt : n % server_infos.length < server_infos.length := Nat.mod_lt n hpos
    refine ⟨server_infos[n % server_infos.length], List.getElem?_eq_getElem hlt, hlt, ?_⟩
    have h := select_calls_get server_infos hK m n 0 (Nat.zero_le _) hn
    simp only [Nat.cast_zero, Nat.zero_add] at h
    rw [h, List.getElem?_eq_getElem hlt]
  · intro h3
    apply List.ext_getElem?
    intro n
    by_cases hn : n < server_infos.length + 3
    · have h := select_calls_get server_infos hK (server_infos.length + 3) n 0 (Nat.zero_le _) hn
      simp only [Nat.cast_zero, Nat.zero_add] at h
      rw [List.getElem?_map, h]
      by_cases hlt : n < server_infos.length
      · rw [List.getElem?_append_left (by simpa using hlt), List.getElem?_map,
          List.getElem?_range hlt, Nat.mod_eq_of_lt hlt]
        rfl
      · have hge : server_infos.length ≤ n := Nat.le_of_not_lt hlt
        rw [List.getElem?_append_right (by simpa using hge)]
        have hm : n % server_infos.length = n - server_infos.length := by
          rw [Nat.mod_eq_sub_mod hge, Nat.mod_eq_of_lt (by omega)]
        simp only [List.length_map, List.length_range, hm, Option.map_some']
        obtain ⟨j, rfl⟩ : ∃ j, n = server_infos.length + j := ⟨n - server_infos.length, by omega⟩
        have hj : j < 3 := by omega
        simp only [Nat.add_sub_cancel_left]
        interval_cases j <;> rfl
    · have hge : server_infos.length + 3 ≤ n := Nat.le_of_not_lt hn
      rw [List.getElem?_eq_none (by simpa [select_calls_length] using hge),
        List.getElem?_eq_none (by simpa using hge)]

/-- C2, at a concrete list of three backends. -/
theorem select_a_server_round_robin_witness :
    (∀ m n : Nat, n < m →
      ∃ b : server_info,
        [(⟨[], 1⟩ : server_info), ⟨[], 2⟩, ⟨[], 3⟩][n % 3]? = some b ∧
        n % 3 < 3 ∧
        (select_calls [(⟨[], 1⟩ : server_info), ⟨[], 2⟩, ⟨[], 3⟩] (3 : Nat) 0 m)[n]? =
          some ⟨((n % 3 : Nat) : Int), some b, ((n % 3 + 1 : Nat) : Int)⟩) ∧
    (3 ≤ 3 →
      (select_calls [(⟨[], 1⟩ : server_info), ⟨[], 2⟩, ⟨[], 3⟩] (3 : Nat) 0 (3 + 3)).map
          select_result.index =
        (List.range 3).map Int.ofNat ++ [0, 1, 2]) :=
  select_a_server_round_robin [⟨[], 1⟩, ⟨[], 2⟩, ⟨[], 3⟩] (by decide)

theorem pump_step_eq (K : sctp_consts) (info : proxy_info) (ev : recv_event) :
    pump_step K info ev =
      if ev.n < 0 then ⟨[recv_action info ev], none⟩
      else if ev.n = 0 then ⟨[recv_action info ev], none⟩
      else if ev.flags &&& K.MSG_EOR ≠ 0 then
        if ev.send_ret < 0 then ⟨[recv_action info ev, send_action info ev K], none⟩
        else ⟨[recv_action info ev, send_action info ev K],
          some (leg_update ev.leg info
            (buf_write (leg_buf ev.leg info) (leg_offset ev.leg info) ev.data) 0
            (leg_size ev.leg info))⟩
      else if size_add (leg_offset ev.leg info) ev.n = leg_size ev.leg info then
        if realloc_succeeds (size_double (leg_size ev.leg info)) ev.realloc_ok then
          ⟨[recv_action info ev, Action.realloc ev.leg (size_double (leg_size ev.leg info))],
            some (leg_update ev.leg info
              (buf_write (leg_buf ev.leg info) (leg_offset ev.leg info) ev.data)
              (size_add (leg_offset ev.leg info) ev.n)
              (size_double (leg_size ev.leg info)))⟩
        else ⟨[recv_action info ev, Action.realloc ev.leg (size_double (leg_size ev.leg info))], none⟩
      else
        ⟨[recv_action info ev],
          some (leg_update ev.leg info
            (buf_write (leg_buf ev.leg info) (leg_offset ev.leg info) ev.data)
            (size_add (leg_offset ev.leg info) ev.n) (leg_size ev.leg info))⟩ := by
  obtain ⟨l, n, data, flags, st, fl, pp, sr, ro⟩ := ev
  cases l
  · simp only [pump_step, recv_client, recv_action, send_action, leg_fd, leg_buf, leg_size,
      leg_offset, leg_room, leg_update, Leg.other, neg_zero]
  · simp only [pump_step, recv_server, recv_action, send_action, leg_fd, leg_buf, leg_size,
      leg_offset, leg_room, leg_update, Leg.other, neg_zero]

/-! ## The loop over iterations and the loop over receive events -/

/-- Running the loop iteration by iteration is running `pump` on the trace of
receive events of those iterations. -/
theorem for_loop_eq_pump (K : sctp_consts) :
    ∀ (ws : List wake) (info : proxy_info), for_loop K info ws = pump K info (trace_of ws) := by
  intro ws
  induction ws with
  | nil => intro info; rfl
  | cons w rest ih =>
    intro info
    obtain ⟨c, s⟩ := w
    cases c with
    | none =>
      cases s with
      | none => simp [for_loop, trace_of, wake_events, ih]
      | some es =>
        have hs : pump_step K info { es with leg := Leg.server } = recv_server K info es := rfl
        cases h : (recv_server K info es).next <;>
          simp [for_loop, trace_of, wake_events, pump, hs, h, ih]
    | some ec =>
      have hc : pump_step K info { ec with leg := Leg.client } = recv_client K info ec := rfl
      cases h : (recv_client K info ec).next with
      | none => simp [for_loop, trace_of, wake_events, pump, hc, h]
      | some info1 =>
        cases s with
        | none => simp [for_loop, trace_of, wake_events, pump, hc, h, ih]
        | some es =>
          have hs : pump_step K info1 { es with leg := Leg.server } = recv_server K info1 es :=
            rfl
          cases h2 : (recv_server K info1 es).next <;>
            simp [for_loop, trace_of, wake_events, pump, hc, hs, h, h2, ih]

/-! ## `size_t` arithmetic inside the buffer bounds -/

theorem size_sub_eq (size off : Nat) (h : off ≤ size) (hs : size ≤ PTRDIFF_MAX) :
    size_sub size off = size - off := by
  unfold size_sub
  norm_num [SIZE_MOD, PTRDIFF_MAX] at *
  omega

theorem size_add_eq (size off : Nat) (n : Int) (h : off ≤ size) (hs : size ≤ PTRDIFF_MAX)
    (hroom : n ≤ (size_sub size off : Int)) :
    size_add off n = off + n.toNat ∧ off + n.toNat ≤ size := by
  rw [size_sub_eq size off h hs] at hroom
  unfold size_add
  norm_num [SIZE_MOD, PTRDIFF_MAX] at *
  omega

theorem size_double_eq (size : Nat) (hs : size ≤ PTRDIFF_MAX) :
    size_double size = 2 * size := by
  unfold size_double
  norm_num [SIZE_MOD, PTRDIFF_MAX] at *
  omega

/-! ## Buffer reads and writes -/

theorem buf_read_zero (buf : Nat → Nat) : buf_read buf 0 = [] := rfl

theorem buf_read_write (buf : Nat → Nat) (off : Nat) (data : List Nat) :
    buf_read (buf_write buf off data) (off + data.length) = buf_read buf off ++ data := by
  unfold buf_read
  rw [List.range_add, List.map_append, List.map_map]
  congr 1
  · apply List.map_congr_left
    intro i hi
    have : i < off := List.mem_range.mp hi
    simp only [buf_write]
    rw [if_neg (by omega)]
  · apply List.ext_getElem
    · simp
    · intro i h1 h2
      simp only [List.length_map, List.length_range] at h1
      simp [buf_write, h1, List.getD_eq_getElem?_getD]

/-! ## Accessors after an update -/

theorem leg_size_update (l l1 : Leg) (info : proxy_info) (b : Nat → Nat) (o s : Nat) :
    leg_size l1 (leg_update l info b o s) = if l1 = l then s else leg_size l1 info := by
  cases l <;> cases l1 <;> rfl

theorem leg_offset_update (l l1 : Leg) (info : proxy_info) (b : Nat → Nat) (o s : Nat) :
    leg_offset l1 (leg_update l info b o s) = if l1 = l then o else leg_offset l1 info := by
  cases l <;> cases l1 <;> rfl

theorem leg_buf_update (l l1 : Leg) (info : proxy_info) (b : Nat → Nat) (o s : Nat) :
    leg_buf l1 (leg_update l info b o s) = if l1 = l then b else leg_buf l1 info := by
  cases l <;> cases l1 <;> rfl

theorem leg_fd_update (l l1 : Leg) (info : proxy_info) (b : Nat → Nat) (o s : Nat) :
    leg_fd l1 (leg_update l info b o s) = leg_fd l1 info := by
  cases l <;> cases l1 <;> rfl

theorem leg_size_update_same (l : Leg) (info : proxy_info) (b : Nat → Nat) (o s : Nat) :
    leg_size l (leg_update l info b o s) = s := by
  cases l <;> rfl

theorem leg_offset_update_same (l : Leg) (info : proxy_info) (b : Nat → Nat) (o s : Nat) :
    leg_offset l (leg_update l info b o s) = o := by
  cases l <;> rfl

theorem leg_buf_update_same (l : Leg) (info : proxy_info) (b : Nat → Nat) (o s : Nat) :
    leg_buf l (leg_update l info b o s) = b := by
  cases l <;> rfl

theorem leg_size_update_other (l l1 : Leg) (h : l1 ≠ l) (info : proxy_info) (b : Nat → Nat)
    (o s : Nat) : leg_size l1 (leg_update l info b o s) = leg_size l1 info := by
  cases l <;> cases l1 <;> first | rfl | exact absurd rfl h

theorem leg_offset_update_other (l l1 : Leg) (h : l1 ≠ l) (info : proxy_info) (b : Nat → Nat)
    (o s : Nat) : leg_offset l1 (leg_update l info b o s) = leg_offset l1 info := by
  cases l <;> cases l1 <;> first | rfl | exact absurd rfl h

theorem leg_buf_update_other (l l1 : Leg) (h : l1 ≠ l) (info : proxy_info) (b : Nat → Nat)
    (o s : Nat) : leg_buf l1 (leg_update l info b o s) = leg_buf l1 info := by
  cases l <;> cases l1 <;> first | rfl | exact absurd rfl h

/-! ## One step of the loop preserves the buffer bounds -/

theorem leg_ok_step (K : sctp_consts) (info info1 : proxy_info) (ev : recv_event) (l : Leg)
    (hok : leg_ok l info) (hroom : within_room info ev)
    (h : (pump_step K info ev).next = some info1) :
    leg_ok l info1 ∧ leg_size l info ≤ leg_size l info1 ∧
      (leg_size l info1 = leg_size l info ∨ leg_size l info1 = 2 * leg_size l info) := by
  obtain ⟨ho, hs⟩ := hok
  rw [pump_step_eq] at h
  unfold within_room leg_room at hroom
  by_cases hl : l = ev.leg
  · subst hl
    have ha := size_add_eq _ _ ev.n (Nat.le_of_lt ho) hs hroom
    split_ifs at h with h1 h2 h3 h4 h5 h6
    all_goals
      simp only [Option.some.injEq] at h
      subst h
      simp only [leg_ok, leg_size_update_same, leg_offset_update_same]
    · exact ⟨⟨by omega, hs⟩, Nat.le_refl _, Or.inl trivial⟩
    · simp only [realloc_succeeds, Bool.and_eq_true, decide_eq_true_eq] at h6
      have hd := size_double_eq _ hs
      rw [hd] at h6 ⊢
      exact ⟨⟨by omega, h6.2⟩, by omega, Or.inr rfl⟩
    · exact ⟨⟨by omega, hs⟩, Nat.le_refl _, Or.inl trivial⟩
  · split_ifs at h with h1 h2 h3 h4 h5 h6
    all_goals
      simp only [Option.some.injEq] at h
      subst h
      simp only [leg_ok, leg_size_update_other _ _ hl, leg_offset_update_other _ _ hl]
      exact ⟨⟨ho, hs⟩, Nat.le_refl _, Or.inl trivial⟩

theorem recv_rooms_append (a b : List Action) :
    recv_rooms (a ++ b) = recv_rooms a ++ recv_rooms b := by
  induction a with
  | nil => rfl
  | cons x xs ih => cases x <;> simp [recv_rooms, ih]

theorem recv_rooms_step (K : sctp_consts) (info : proxy_info) (ev : recv_event) :
    recv_rooms (pump_step K info ev).log = [leg_room ev.leg info] := by
  rw [pump_step_eq]
  split_ifs <;> simp [recv_rooms, recv_action, send_action]

theorem leg_room_pos (l : Leg) (info : proxy_info) (h : leg_ok l info) :
    0 < leg_room l info := by
  unfold leg_room
  rw [size_sub_eq _ _ (Nat.le_of_lt h.1) h.2]
  have := h.1
  omega

theorem along_head (K : sctp_consts) (P : proxy_info → recv_event → Prop) (info : proxy_info)
    (ev : recv_event) (rest : List recv_event) (h : along K P info (ev :: rest)) :
    P info ev :=
  h (info, ev) (by simp [visited])

theorem along_tail (K : sctp_consts) (P : proxy_info → recv_event → Prop)
    (info info1 : proxy_info) (ev : recv_event) (rest : List recv_event)
    (hnext : (pump_step K info ev).next = some info1) (h : along K P info (ev :: rest)) :
    along K P info1 rest := by
  intro p hp
  apply h p
  simp only [visited, hnext, List.mem_cons]
  exact Or.inr hp

/-- The bounds hold in every state the loop reaches, capacities only grow, by
doubling, and every receive is given room. -/
theorem pump_bounds (K : sctp_consts) :
    ∀ (trace : List recv_event) (info : proxy_info),
      (∀ l, leg_ok l info) → along K within_room info trace →
      (∀ l, leg_ok l (pump K info trace).info ∧
        leg_size l info ≤ leg_size l (pump K info trace).info ∧
        ∃ j, leg_size l (pump K info trace).info = leg_size l info * 2 ^ j) ∧
      (∀ r ∈ recv_rooms (pump K info trace).log, 0 < r) := by
  intro trace
  induction trace with
  | nil =>
    intro info hok _
    refine ⟨fun l => ⟨hok l, Nat.le_refl _, 0, by simp [pump]⟩, ?_⟩
    intro r hr
    simp [pump, recv_rooms] at hr
  | cons ev rest ih =>
    intro info hok hal
    have hroom := along_head K _ info ev rest hal
    have hpos := leg_room_pos ev.leg info (hok ev.leg)
    cases hnext : (pump_step K info ev).next with
    | none =>
      simp only [pump, hnext]
      refine ⟨fun l => ⟨hok l, Nat.le_refl _, 0, by simp⟩, ?_⟩
      intro r hr
      rw [recv_rooms_step] at hr
      simp only [List.mem_singleton] at hr
      omega
    | some info1 =>
      have hrest := along_tail K _ info info1 ev rest hnext hal
      have hstep := fun l => leg_ok_step K info info1 ev l (hok l) hroom hnext
      obtain ⟨hfin, hrooms⟩ := ih info1 (fun l => (hstep l).1) hrest
      simp only [pump, hnext]
      refine ⟨fun l => ?_, ?_⟩
      · obtain ⟨h1, h2, j, hj⟩ := hfin l
        obtain ⟨_, g2, g3⟩ := hstep l
        refine ⟨h1, Nat.le_trans g2 h2, ?_⟩
        rcases g3 with g3 | g3
        · exact ⟨j, by rw [hj, g3]⟩
        · exact ⟨j + 1, by rw [hj, g3, pow_succ]; ring⟩
      · intro r hr
        rw [recv_rooms_append, recv_rooms_step] at hr
        simp only [List.singleton_append, List.mem_cons] at hr
        rcases hr with hr | hr
        · omega
        · exact hrooms r hr

/-! ## Establishment -/

theorem establish_ok (info : proxy_info) (env : estab_env)
    (h : (establish info env).ok = true) :
    (establish info env).info =
      { info with client_buf_size := INITIAL_BUF_SIZE, client_buf_offset := 0,
                  client_buf := env.client_block,
                  server_buf_size := INITIAL_BUF_SIZE, server_buf_offset := 0,
                  server_buf := env.server_block, server_fd := env.socket_ret } ∧
      0 ≤ env.socket_ret := by
  by_cases h1 : env.getsockopt_ret < 0
  · simp [establish, h1] at h
  by_cases h2 : env.malloc_client_ok = true
  swap
  · simp [establish, h1, h2] at h
  by_cases h3 : env.malloc_server_ok = true
  swap
  · simp [establish, h1, h2, h3] at h
  by_cases h4 : env.socket_ret < 0
  · simp [establish, h1, h2, h3, h4] at h
  refine ⟨?_, by omega⟩
  by_cases h5 : env.setsockopt_v6only_ret < 0 <;>
  by_cases h6 : env.setsockopt_initmsg_ret < 0 <;>
  by_cases h7 : env.sctp_bindx_ret < 0 <;>
  by_cases h8 : env.sctp_connectx_ret < 0 <;>
  cases hv : info.ipv4only <;>
  first
  | (simp [establish, h1, h2, h3, h4, h5, h6, h7, h8, hv] at h; done)
  | simp [establish, h1, h2, h3, h4, h5, h6, h7, h8, hv]

theorem establish_leg_ok (info : proxy_info) (env : estab_env)
    (h : (establish info env).ok = true) (l : Leg) :
    leg_offset l (establish info env).info = 0 ∧
      leg_size l (establish info env).info = INITIAL_BUF_SIZE ∧
      leg_ok l (establish info env).info := by
  rw [(establish_ok info env h).1]
  cases l <;> simp [leg_ok, leg_offset, leg_size, INITIAL_BUF_SIZE, PTRDIFF_MAX]

/-! ## C4: offsets stay below capacities -/

/-- C4: in every loop-head state reached from establishment (offset 0,
capacity 10240) by a trace whose receives return at most the room they were
given, each buffer has `offset < capacity` (so `offset ≤ capacity`), every
receive in the log was given a non-zero room, the offset stays within the
capacity right after `offset += n`, and a chunk without end-of-record that
brings the offset to exactly the capacity makes the branch call `realloc`
for twice the capacity; when the loop goes on, the capacity is doubled. -/
theorem pump_offset_below_capacity (K : sctp_consts) (info : proxy_info) (env : estab_env)
    (trace : List recv_event)
    (hest : (establish info env).ok = true)
    (hroom : along K within_room (establish info env).info trace) :
    (∀ l, leg_offset l (pump K (establish info env).info trace).info <
            leg_size l (pump K (establish info env).info trace).info ∧
          leg_offset l (pump K (establish info env).info trace).info ≤
            leg_size l (pump K (establish info env).info trace).info) ∧
    (∀ r ∈ recv_rooms (pump K (establish info env).info trace).log, 0 < r) ∧
    (∀ ev : recv_event, within_room (pump K (establish info env).info trace).info ev →
      size_add (leg_offset ev.leg (pump K (establish info env).info trace).info) ev.n ≤
        leg_size ev.leg (pump K (establish info env).info trace).info) ∧
    (∀ ev : recv_event, within_room (pump K (establish info env).info trace).info ev →
      0 < ev.n → ev.flags &&& K.MSG_EOR = 0 →
      size_add (leg_offset ev.leg (pump K (establish info env).info trace).info) ev.n =
        leg_size ev.leg (pump K (establish info env).info trace).info →
      (pump_step K (pump K (establish info env).info trace).info ev).log =
        [recv_action (pump K (establish info env).info trace).info ev,
         Action.realloc ev.leg
           (2 * leg_size ev.leg (pump K (establish info env).info trace).info)] ∧
      ∀ info1, (pump_step K (pump K (establish info env).info trace).info ev).next = some info1 →
        leg_size ev.leg info1 =
          2 * leg_size ev.leg (pump K (establish info env).info trace).info ∧
        leg_offset ev.leg info1 < leg_size ev.leg info1) := by
  have h0 : ∀ l, leg_ok l (establish info env).info :=
    fun l => (establish_leg_ok info env hest l).2.2
  obtain ⟨hfin, hrooms⟩ := pump_bounds K trace _ h0 hroom
  generalize (pump K (establish info env).info trace).info = s at hfin ⊢
  generalize (pump K (establish info env).info trace).log = lg at hrooms ⊢
  refine ⟨fun l => ⟨(hfin l).1.1, Nat.le_of_lt (hfin l).1.1⟩, hrooms, ?_, ?_⟩
  · intro ev hw
    obtain ⟨ho, hs⟩ := (hfin ev.leg).1
    have ha := size_add_eq _ _ ev.n (Nat.le_of_lt ho) hs hw
    omega
  · intro ev hw hn heor hfull
    obtain ⟨ho, hs⟩ := (hfin ev.leg).1
    have hd := size_double_eq _ hs
    have hn1 : ¬ ev.n < 0 := by omega
    have hn2 : ¬ ev.n = 0 := by omega
    constructor
    · rw [pump_step_eq]
      simp only [hn1, hn2, heor, hfull, hd, if_false, if_true, ne_eq, not_true_eq_false]
      split_ifs <;> rfl
    · intro info1 hnext
      rw [pump_step_eq] at hnext
      simp only [hn1, hn2, heor, hfull, hd, if_false, if_true, ne_eq, not_true_eq_false] at hnext
      split_ifs at hnext
      simp only [Option.some.injEq] at hnext
      subst hnext
      rw [leg_size_update_same]
      refine ⟨rfl, ?_⟩
      rw [leg_offset_update_same]
      omega

/-- C4, on a trace whose first chunk fills the client buffer exactly. -/
theorem pump_offset_below_capacity_witness :
    (establish sample_info sample_env).ok = true ∧
    along linux_consts within_room (establish sample_info sample_env).info
      [⟨Leg.client, 10240, [], 0, 0, 0, 0, 0, true⟩, ⟨Leg.client, 5, [], 0x80, 0, 0, 0, 0, true⟩] ∧
    (∀ l, leg_offset l (pump linux_consts (establish sample_info sample_env).info
            [⟨Leg.client, 10240, [], 0, 0, 0, 0, 0, true⟩,
             ⟨Leg.client, 5, [], 0x80, 0, 0, 0, 0, true⟩]).info <
          leg_size l (pump linux_consts (establish sample_info sample_env).info
            [⟨Leg.client, 10240, [], 0, 0, 0, 0, 0, true⟩,
             ⟨Leg.client, 5, [], 0x80, 0, 0, 0, 0, true⟩]).info ∧
        leg_offset l (pump linux_consts (establish sample_info sample_env).info
            [⟨Leg.client, 10240, [], 0, 0, 0, 0, 0, true⟩,
             ⟨Leg.client, 5, [], 0x80, 0, 0, 0, 0, true⟩]).info ≤
          leg_size l (pump linux_consts (establish sample_info sample_env).info
            [⟨Leg.client, 10240, [], 0, 0, 0, 0, 0, true⟩,
             ⟨Leg.client, 5, [], 0x80, 0, 0, 0, 0, true⟩]).info) :=
  ⟨by decide, by decide,
    (pump_offset_below_capacity linux_consts sample_info sample_env
      [⟨Leg.client, 10240, [], 0, 0, 0, 0, 0, true⟩, ⟨Leg.client, 5, [], 0x80, 0, 0, 0, 0, true⟩]
      (by decide) (by decide)).1⟩

/-! ## Reading the log -/

theorem sent_on_append (l : Leg) (a b : List Action) :
    sent_on l (a ++ b) = sent_on l a ++ sent_on l b := by
  induction a with
  | nil => rfl
  | cons x xs ih =>
    cases x <;> simp [sent_on, ih]
    split_ifs <;> simp

theorem received_on_append (l : Leg) (a b : List Action) :
    received_on l (a ++ b) = received_on l a ++ received_on l b := by
  induction a with
  | nil => rfl
  | cons x xs ih =>
    cases x <;> simp [received_on, ih]
    split_ifs <;> simp

theorem other_injective (a b : Leg) : a.other = b.other ↔ a = b := by
  cases a <;> cases b <;> simp [Leg.other]

theorem received_on_step (K : sctp_consts) (l : Leg) (info : proxy_info) (ev : recv_event)
    (hn : 0 < ev.n) :
    received_on l (pump_step K info ev).log = if ev.leg = l then [chunk_of ev] else [] := by
  rw [pump_step_eq]
  split_ifs <;> simp_all [received_on, recv_action, send_action, chunk_of]

theorem sent_on_step (K : sctp_consts) (l : Leg) (info : proxy_info) (ev : recv_event)
    (hok : leg_ok ev.leg info) (hd : delivers_chunk info ev) :
    sent_on l.other (pump_step K info ev).log =
      if ev.leg = l ∧ (chunk_of ev).eor K = true then
        [⟨buf_read (leg_buf l info) (leg_offset l info) ++ ev.data, ev.sinfo_stream,
          ev.sinfo_flags &&& K.SCTP_UNORDERED, ev.sinfo_ppid⟩]
      else [] := by
  obtain ⟨hn, hroom, hlen⟩ := hd
  have ha := size_add_eq _ _ ev.n (Nat.le_of_lt hok.1) hok.2 hroom
  have hlen2 : ev.n.toNat = ev.data.length := by omega
  rw [pump_step_eq]
  by_cases hl : ev.leg = l
  · subst hl
    split_ifs <;>
      simp_all [sent_on, recv_action, send_action, chunk_of, chunk.eor, buf_read_write]
    omega
  · have hl2 : ¬ ev.leg.other = l.other := fun h => hl ((other_injective _ _).mp h)
    split_ifs <;> simp_all [sent_on, recv_action, send_action, chunk_of, chunk.eor]

/-! ## What is pending in a buffer after one step -/

theorem pending_step (K : sctp_consts) (l : Leg) (info info1 : proxy_info) (ev : recv_event)
    (hok : leg_ok ev.leg info) (hd : delivers_chunk info ev)
    (hnext : (pump_step K info ev).next = some info1) :
    buf_read (leg_buf l info1) (leg_offset l info1) =
      if ev.leg = l then
        if (chunk_of ev).eor K = true then []
        else buf_read (leg_buf l info) (leg_offset l info) ++ ev.data
      else buf_read (leg_buf l info) (leg_offset l info) := by
  obtain ⟨hn, hroom, hlen⟩ := hd
  have ha := size_add_eq _ _ ev.n (Nat.le_of_lt hok.1) hok.2 hroom
  have hlen2 : ev.n.toNat = ev.data.length := by omega
  rw [hlen2] at ha
  rw [pump_step_eq] at hnext
  by_cases hl : ev.leg = l
  · subst hl
    split_ifs at hnext with h1 h2 h3 h4 h5 h6 <;>
      simp only [Option.some.injEq] at hnext <;>
      subst hnext <;>
      simp_all [leg_buf_update_same, leg_offset_update_same, chunk_of, chunk.eor,
        buf_read_write, buf_read_zero]
  · have hl2 : l ≠ ev.leg := fun h => hl h.symm
    split_ifs at hnext with h1 h2 h3 h4 h5 h6 <;>
      simp only [Option.some.injEq] at hnext <;>
      subst hnext <;>
      simp [leg_buf_update_other _ _ hl2, leg_offset_update_other _ _ hl2, hl]

/-! ## The relay contract -/

/-- The sends made towards the far side of leg `l` are the messages the
contract prescribes for the chunks received on `l`, the bytes pending in the
buffer at the start included. -/
theorem pump_relays (K : sctp_consts) (l : Leg) :
    ∀ (trace : List recv_event) (info : proxy_info),
      (∀ l1, leg_ok l1 info) → along K delivers_chunk info trace →
      sent_on l.other (pump K info trace).log =
        relayed K (buf_read (leg_buf l info) (leg_offset l info))
          (received_on l (pump K info trace).log) := by
  intro trace
  induction trace with
  | nil => intro info _ _; simp [pump, sent_on, received_on, relayed]
  | cons ev rest ih =>
    intro info hok hal
    have hd := along_head K _ info ev rest hal
    have hroom : within_room info ev := hd.2.1
    have hs := sent_on_step K l info ev (hok ev.leg) hd
    have hr := received_on_step K l info ev hd.1
    cases hnext : (pump_step K info ev).next with
    | none =>
      simp only [pump, hnext]
      rw [hs, hr]
      have hdata : (chunk_of ev).data = ev.data := rfl
      have hstream : (chunk_of ev).sinfo_stream = ev.sinfo_stream := rfl
      have hflags : (chunk_of ev).sinfo_flags = ev.sinfo_flags := rfl
      have hppid : (chunk_of ev).sinfo_ppid = ev.sinfo_ppid := rfl
      by_cases hl : ev.leg = l <;> by_cases he : (chunk_of ev).eor K = true <;>
        simp [hl, he, relayed, hdata, hstream, hflags, hppid]
    | some info1 =>
      have hrest := along_tail K _ info info1 ev rest hnext hal
      have hok1 : ∀ l1, leg_ok l1 info1 :=
        fun l1 => (leg_ok_step K info info1 ev l1 (hok l1) hroom hnext).1
      have hp := pending_step K l info info1 ev (hok ev.leg) hd hnext
      have h := ih info1 hok1 hrest
      simp only [pump, hnext]
      rw [sent_on_append, received_on_append, hs, hr, h, hp]
      have hdata : (chunk_of ev).data = ev.data := rfl
      have hstream : (chunk_of ev).sinfo_stream = ev.sinfo_stream := rfl
      have hflags : (chunk_of ev).sinfo_flags = ev.sinfo_flags := rfl
      have hppid : (chunk_of ev).sinfo_ppid = ev.sinfo_ppid := rfl
      by_cases hl : ev.leg = l <;> by_cases he : (chunk_of ev).eor K = true <;>
        simp [hl, he, relayed, hdata, hstream, hflags, hppid]

theorem relayed_length (K : sctp_consts) :
    ∀ (cs : List chunk) (pending : List Nat),
      (relayed K pending cs).length = (cs.filter (chunk.eor K)).length := by
  intro cs
  induction cs with
  | nil => intro _; rfl
  | cons c rest ih =>
    intro pending
    by_cases he : c.eor K = true <;> simp [relayed, he, ih]

theorem pump_received (K : sctp_consts) (l : Leg) :
    ∀ (trace : List recv_event) (info : proxy_info),
      along K delivers_chunk info trace →
      received_on l (pump K info trace).log = chunks_processed K l info trace := by
  intro trace
  induction trace with
  | nil => intro info _; rfl
  | cons ev rest ih =>
    intro info hal
    have hd := along_head K _ info ev rest hal
    have hr := received_on_step K l info ev hd.1
    cases hnext : (pump_step K info ev).next with
    | none =>
      simp only [pump, hnext, chunks_processed, visited]
      rw [hr]
      by_cases hl : ev.leg = l <;> simp [hl]
    | some info1 =>
      have h := ih info1 (along_tail K _ info info1 ev rest hnext hal)
      simp only [pump, hnext, chunks_processed, visited]
      rw [received_on_append, hr, h]
      by_cases hl : ev.leg = l <;> simp [hl, chunks_processed]

theorem pump_closed_by_realloc (K : sctp_consts) :
    ∀ (trace : List recv_event) (info : proxy_info),
      along K delivers_chunk info trace → (∀ ev ∈ trace, 0 ≤ ev.send_ret) →
      (pump K info trace).closed = true →
      ∃ l size, (pump K info trace).log.getLast? = some (Action.realloc l size) := by
  intro trace
  induction trace with
  | nil => intro info _ _ hc; simp [pump] at hc
  | cons ev rest ih =>
    intro info hal hsend hc
    have hd := along_head K _ info ev rest hal
    have hs : ¬ ev.send_ret < 0 := by
      have := hsend ev (List.mem_cons_self _ _)
      omega
    cases hnext : (pump_step K info ev).next with
    | none =>
      simp only [pump, hnext]
      have hn1 : ¬ ev.n < 0 := by have := hd.1; omega
      have hn2 : ¬ ev.n = 0 := by have := hd.1; omega
      rw [pump_step_eq] at hnext ⊢
      simp only [hn1, hn2, hs, if_false] at hnext ⊢
      split_ifs at hnext ⊢
      exact ⟨_, _, rfl⟩
    | some info1 =>
      simp only [pump, hnext] at hc ⊢
      obtain ⟨l, size, hsize⟩ := ih info1 (along_tail K _ info info1 ev rest hnext hal)
        (fun e he => hsend e (List.mem_cons_of_mem _ he)) hc
      refine ⟨l, size, ?_⟩
      rw [List.getLast?_append, hsize]
      rfl

/-! ## C1: only complete messages are forwarded, unchanged and in order -/

/-- C1: run the pump loop from the established state over any trace in which
every receive delivers a chunk (`0 < n ≤ room`, `n` bytes stored) and every
send succeeds.  For each leg `l`: the chunks received on `l` are those of the
events processed on `l`; the `sctp_sendmsg` calls made on the other leg are
exactly, in order, one per end-of-record chunk received on `l`, each carrying
the concatenation of the chunks received on `l` since the previous
end-of-record and the stream number, unordered bit and payload identifier of
the end-of-record chunk; their number is the number of end-of-record chunks;
and the loop stops within the trace only after a failed `realloc`. -/
theorem pump_forwards_complete_messages (K : sctp_consts) (info : proxy_info)
    (env : estab_env) (trace : List recv_event) (l : Leg)
    (hest : (establish info env).ok = true)
    (hchunks : along K delivers_chunk (establish info env).info trace)
    (hsend : ∀ ev ∈ trace, 0 ≤ ev.send_ret) :
    received_on l (pump K (establish info env).info trace).log =
      chunks_processed K l (establish info env).info trace ∧
    sent_on l.other (pump K (establish info env).info trace).log =
      relayed K [] (received_on l (pump K (establish info env).info trace).log) ∧
    (sent_on l.other (pump K (establish info env).info trace).log).length =
      ((received_on l (pump K (establish info env).info trace).log).filter
        (chunk.eor K)).length ∧
    ((pump K (establish info env).info trace).closed = true →
      ∃ l1 size, (pump K (establish info env).info trace).log.getLast? =
        some (Action.realloc l1 size)) := by
  have h0 := establish_leg_ok info env hest
  have hrel := pump_relays K l trace _ (fun l1 => (h0 l1).2.2) hchunks
  rw [(h0 l).1, buf_read_zero] at hrel
  refine ⟨pump_received K l trace _ hchunks, hrel, ?_,
    pump_closed_by_realloc K trace _ hchunks hsend⟩
  rw [hrel, relayed_length]

/-- C1, on a trace that interleaves the two directions. -/
theorem pump_forwards_complete_messages_witness :
    (establish sample_info sample_env).ok = true ∧
    along linux_consts delivers_chunk (establish sample_info sample_env).info sample_trace ∧
    (∀ ev ∈ sample_trace, 0 ≤ ev.send_ret) ∧
    sent_on Leg.client.other
        (pump linux_consts (establish sample_info sample_env).info sample_trace).log =
      relayed linux_consts []
        (received_on Leg.client
          (pump linux_consts (establish sample_info sample_env).info sample_trace).log) :=
  ⟨by decide, by decide, by decide,
    (pump_forwards_complete_messages linux_consts sample_info sample_env sample_trace
      Leg.client (by decide) (by decide) (by decide)).2.1⟩

/-! ## C6: the offset is reset after a forwarded message -/

theorem leg_ok_after_reset (K : sctp_consts) (info info1 : proxy_info) (ev : recv_event)
    (hn : 0 < ev.n) (heor : ev.flags &&& K.MSG_EOR ≠ 0) (hsend : 0 ≤ ev.send_ret)
    (hnext : (pump_step K info ev).next = some info1) :
    leg_offset ev.leg info1 = 0 ∧ leg_size ev.leg info1 = leg_size ev.leg info ∧
      ((∀ l, leg_ok l info) → ∀ l, leg_ok l info1) := by
  have hn1 : ¬ ev.n < 0 := by omega
  have hn2 : ¬ ev.n = 0 := by omega
  have hs : ¬ ev.send_ret < 0 := by omega
  rw [pump_step_eq] at hnext
  simp only [hn1, hn2, hs, heor, if_false, if_true, ne_eq, not_false_eq_true,
    Option.some.injEq] at hnext
  subst hnext
  refine ⟨leg_offset_update_same _ _ _ _ _, leg_size_update_same _ _ _ _ _, ?_⟩
  intro hok l
  by_cases hl : l = ev.leg
  · subst hl
    have := hok ev.leg
    simp only [leg_ok, leg_offset_update_same, leg_size_update_same] at this ⊢
    omega
  · simp only [leg_ok, leg_offset_update_other _ _ hl, leg_size_update_other _ _ hl]
    exact hok l

/-- C6: a chunk with end-of-record whose send succeeds lets the loop go on in
a state in which that direction's offset is 0 and its capacity is what it
was, whatever the state and the size of the chunk; and from there (the
buffer bounds holding before the step) the sends of any further trace are
those prescribed for the chunks received from then on, starting from an
empty pending payload: no byte of the forwarded message is sent again. -/
theorem eor_step_resets_offset (K : sctp_consts) (info : proxy_info) (ev : recv_event)
    (hn : 0 < ev.n) (heor : ev.flags &&& K.MSG_EOR ≠ 0) (hsend : 0 ≤ ev.send_ret) :
    ∃ info1, (pump_step K info ev).next = some info1 ∧
      leg_offset ev.leg info1 = 0 ∧
      leg_size ev.leg info1 = leg_size ev.leg info ∧
      ((∀ l, leg_ok l info) → ∀ trace, along K delivers_chunk info1 trace →
        sent_on ev.leg.other (pump K info1 trace).log =
          relayed K [] (received_on ev.leg (pump K info1 trace).log)) := by
  have hn1 : ¬ ev.n < 0 := by omega
  have hn2 : ¬ ev.n = 0 := by omega
  have hs : ¬ ev.send_ret < 0 := by omega
  have hex : ∃ info1, (pump_step K info ev).next = some info1 := by
    rw [pump_step_eq]
    simp only [hn1, hn2, hs, heor, if_false, if_true, ne_eq, not_false_eq_true]
    exact ⟨_, rfl⟩
  obtain ⟨info1, hnext⟩ := hex
  obtain ⟨ho, hsz, hok1⟩ := leg_ok_after_reset K info info1 ev hn heor hsend hnext
  refine ⟨info1, hnext, ho, hsz, ?_⟩
  intro hok trace hal
  have h := pump_relays K ev.leg trace info1 (hok1 hok) hal
  rw [ho, buf_read_zero] at h
  exact h

/-- C6, for a three-byte message followed by a one-byte message. -/
theorem eor_step_resets_offset_witness :
    (0 : Int) < (sample_chunk Leg.client [1, 2, 3] 0x80).n ∧
    ∃ info1, (pump_step linux_consts (establish sample_info sample_env).info
        (sample_chunk Leg.client [1, 2, 3] 0x80)).next = some info1 ∧
      leg_offset (sample_chunk Leg.client [1, 2, 3] 0x80).leg info1 = 0 ∧
      leg_size (sample_chunk Leg.client [1, 2, 3] 0x80).leg info1 =
        leg_size (sample_chunk Leg.client [1, 2, 3] 0x80).leg
          (establish sample_info sample_env).info ∧
      ((∀ l, leg_ok l (establish sample_info sample_env).info) →
        ∀ trace, along linux_consts delivers_chunk info1 trace →
        sent_on (sample_chunk Leg.client [1, 2, 3] 0x80).leg.other
            (pump linux_consts info1 trace).log =
          relayed linux_consts []
            (received_on (sample_chunk Leg.client [1, 2, 3] 0x80).leg
              (pump linux_consts info1 trace).log)) :=
  ⟨by decide,
    eor_step_resets_offset linux_consts (establish sample_info sample_env).info
      (sample_chunk Leg.client [1, 2, 3] 0x80) (by decide) (by decide) (by decide)⟩

/-! ## C7: end of data or a receive error closes the session -/

theorem pump_step_fds (K : sctp_consts) (info info1 : proxy_info) (ev : recv_event)
    (hnext : (pump_step K info ev).next = some info1) :
    info1.client_fd = info.client_fd ∧ info1.server_fd = info.server_fd := by
  rw [pump_step_eq] at hnext
  split_ifs at hnext <;> simp only [Option.some.injEq] at hnext <;> subst hnext <;>
    cases ev.leg <;> exact ⟨rfl, rfl⟩

theorem pump_fds (K : sctp_consts) :
    ∀ (trace : List recv_event) (info : proxy_info),
      (pump K info trace).info.client_fd = info.client_fd ∧
      (pump K info trace).info.server_fd = info.server_fd := by
  intro trace
  induction trace with
  | nil => intro info; exact ⟨rfl, rfl⟩
  | cons ev rest ih =>
    intro info
    cases hnext : (pump_step K info ev).next with
    | none => simp only [pump, hnext, and_self]
    | some info1 =>
      simp only [pump, hnext]
      obtain ⟨h1, h2⟩ := pump_step_fds K info info1 ev hnext
      obtain ⟨g1, g2⟩ := ih info1
      exact ⟨g1.trans h1, g2.trans h2⟩

theorem pump_append (K : sctp_consts) (b : List recv_event) :
    ∀ (a : List recv_event) (info : proxy_info), (pump K info a).closed = false →
      pump K info (a ++ b) =
        ⟨(pump K info a).log ++ (pump K (pump K info a).info b).log,
         (pump K (pump K info a).info b).info, (pump K (pump K info a).info b).closed⟩ := by
  intro a
  induction a with
  | nil => intro info _; simp [pump]
  | cons ev rest ih =>
    intro info hc
    cases hnext : (pump_step K info ev).next with
    | none => simp [pump, hnext] at hc
    | some info1 =>
      simp only [pump, hnext] at hc
      have h := ih info1 hc
      rw [List.cons_append]
      simp only [pump, hnext]
      rw [h]
      simp

theorem pump_end (K : sctp_consts) (info : proxy_info) (ev : recv_event)
    (rest : List recv_event) (hn : ev.n = 0 ∨ ev.n < 0) :
    pump K info (ev :: rest) = ⟨[recv_action info ev], info, true⟩ := by
  have h : pump_step K info ev = ⟨[recv_action info ev], none⟩ := by
    rw [pump_step_eq]
    rcases hn with hn | hn
    · simp [hn]
    · simp [hn]
  simp [pump, h]

/-- C7: in a session that establishment has brought to the pump loop and
that is still running after the trace `pre`, a receive on either leg that
returns `0` or any negative value ends `proxy` in that step: the receive is
the last call before `cleanup`, which closes the server descriptor and the
client descriptor; no send is made in the step and the rest of the trace is
not processed, whatever the offsets of the two buffers. -/
theorem recv_end_closes_session (K : sctp_consts) (info : proxy_info) (env : estab_env)
    (pre rest : List recv_event) (ev : recv_event)
    (hest : (establish info env).ok = true) (hcfd : 0 ≤ info.client_fd)
    (hrun : (pump K (establish info env).info pre).closed = false)
    (hn : ev.n = 0 ∨ ev.n < 0) :
    proxy K info env (pre ++ ev :: rest) =
      ⟨(establish info env).log ++
        ((pump K (establish info env).info pre).log ++
          [recv_action (pump K (establish info env).info pre).info ev]) ++
        [Action.close Leg.server env.socket_ret, Action.close Leg.client info.client_fd],
       true⟩ := by
  obtain ⟨hinfo, hsock⟩ := establish_ok info env hest
  obtain ⟨hc, hs⟩ := pump_fds K pre (establish info env).info
  have hc0 : (establish info env).info.client_fd = info.client_fd := by rw [hinfo]
  have hs0 : (establish info env).info.server_fd = env.socket_ret := by rw [hinfo]
  have hp := pump_append K (ev :: rest) pre _ hrun
  rw [pump_end K _ ev rest hn] at hp
  unfold proxy
  simp only [hest, if_true, hp]
  simp [cleanup, hc, hs, hc0, hs0, hcfd, hsock]

/-- C7, for a receive error (`n = -1`) on the server leg while three bytes of
a client message are pending. -/
theorem recv_end_closes_session_witness :
    (establish sample_info sample_env).ok = true ∧ 0 ≤ sample_info.client_fd ∧
    (pump linux_consts (establish sample_info sample_env).info
      [sample_chunk Leg.client [1, 2, 3] 0]).closed = false ∧
    proxy linux_consts sample_info sample_env
        ([sample_chunk Leg.client [1, 2, 3] 0] ++
          (⟨Leg.server, -1, [], 0, 0, 0, 0, 0, true⟩ : recv_event) :: sample_trace) =
      ⟨(establish sample_info sample_env).log ++
        ((pump linux_consts (establish sample_info sample_env).info
            [sample_chunk Leg.client [1, 2, 3] 0]).log ++
          [recv_action (pump linux_consts (establish sample_info sample_env).info
            [sample_chunk Leg.client [1, 2, 3] 0]).info ⟨Leg.server, -1, [], 0, 0, 0, 0, 0, true⟩]) ++
        [Action.close Leg.server sample_env.socket_ret,
         Action.close Leg.client sample_info.client_fd],
       true⟩ :=
  ⟨by decide, by decide, by decide,
    recv_end_closes_session linux_consts sample_info sample_env
      [sample_chunk Leg.client [1, 2, 3] 0] sample_trace ⟨Leg.server, -1, [], 0, 0, 0, 0, 0, true⟩
      (by decide) (by decide) (by decide) (by decide)⟩

/-! ## C8 and C9: establishment -/

theorem establish_log_facts (info : proxy_info) (env : estab_env) :
    (∃ rest, (establish info env).log ++ rest = establish_steps info env) ∧
    ((establish info env).info.client_fd = info.client_fd) ∧
    ((establish info env).info.server_fd =
      if Action.socket (!info.ipv4only) ∈ (establish info env).log then env.socket_ret
      else info.server_fd) ∧
    ((establish info env).ok = false →
      Action.socket (!info.ipv4only) ∈ (establish info env).log →
      0 ≤ env.socket_ret →
      Action.setsockopt_initmsg env.socket_ret (server_initmsg env.status) ∈
          (establish info env).log ∨
        (info.ipv4only = false ∧ env.setsockopt_v6only_ret < 0)) := by
  by_cases h1 : env.getsockopt_ret < 0
  · simp [establish, establish_steps, h1]
  by_cases h2 : env.malloc_client_ok = true
  swap
  · simp [establish, establish_steps, h1, h2]
  by_cases h3 : env.malloc_server_ok = true
  swap
  · simp [establish, establish_steps, h1, h2, h3]
  by_cases h4 : env.socket_ret < 0
  · simp [establish, establish_steps, h1, h2, h3, h4]
  by_cases h5 : env.setsockopt_v6only_ret < 0 <;>
  by_cases h6 : env.setsockopt_initmsg_ret < 0 <;>
  by_cases h7 : env.sctp_bindx_ret < 0 <;>
  by_cases h8 : env.sctp_connectx_ret < 0 <;>
  cases hv : info.ipv4only <;>
  simp [establish, establish_steps, h1, h2, h3, h4, h5, h6, h7, h8, hv]

theorem establish_fails_iff (info : proxy_info) (env : estab_env) :
    (establish info env).ok = false ↔ some_step_fails info env := by
  by_cases h1 : env.getsockopt_ret < 0
  · simp [establish, some_step_fails, h1]
  by_cases h2 : env.malloc_client_ok = true
  swap
  · simp [establish, some_step_fails, h1, h2]
  by_cases h3 : env.malloc_server_ok = true
  swap
  · simp [establish, some_step_fails, h1, h2, h3]
  by_cases h4 : env.socket_ret < 0
  · simp [establish, some_step_fails, h1, h2, h3, h4]
  by_cases h5 : env.setsockopt_v6only_ret < 0 <;>
  by_cases h6 : env.setsockopt_initmsg_ret < 0 <;>
  by_cases h7 : env.sctp_bindx_ret < 0 <;>
  by_cases h8 : env.sctp_connectx_ret < 0 <;>
  cases hv : info.ipv4only <;>
  simp [establish, some_step_fails, h1, h2, h3, h4, h5, h6, h7, h8, hv]

theorem establish_steps_nodup (info : proxy_info) (env : estab_env) :
    (establish_steps info env).Nodup := by
  cases hv : info.ipv4only <;> simp [establish_steps, hv]

theorem establish_steps_no_io (info : proxy_info) (env : estab_env) :
    ∀ a ∈ establish_steps info env,
      (∀ l fd, a ≠ Action.close l fd) ∧ recv_rooms [a] = [] ∧
        ∀ l, sent_on l [a] = [] ∧ received_on l [a] = [] := by
  cases hv : info.ipv4only <;>
    simp [establish_steps, hv, recv_rooms, sent_on, received_on]

theorem no_io_list (L : List Action)
    (h : ∀ a ∈ L, recv_rooms [a] = [] ∧ ∀ l, sent_on l [a] = [] ∧ received_on l [a] = []) :
    recv_rooms L = [] ∧ ∀ l, sent_on l L = [] ∧ received_on l L = [] := by
  induction L with
  | nil => exact ⟨rfl, fun _ => ⟨rfl, rfl⟩⟩
  | cons a t ih =>
    obtain ⟨h1, h2⟩ := h a (List.mem_cons_self _ _)
    obtain ⟨g1, g2⟩ := ih (fun b hb => h b (List.mem_cons_of_mem _ hb))
    refine ⟨?_, fun l => ⟨?_, ?_⟩⟩
    · have := recv_rooms_append [a] t
      rw [List.singleton_append] at this
      rw [this, h1, g1]; rfl
    · have := sent_on_append l [a] t
      rw [List.singleton_append] at this
      rw [this, (h2 l).1, (g2 l).1]; rfl
    · have := received_on_append l [a] t
      rw [List.singleton_append] at this
      rw [this, (h2 l).2, (g2 l).2]; rfl

theorem cleanup_no_io (info : proxy_info) :
    ∀ a ∈ cleanup info, recv_rooms [a] = [] ∧ ∀ l, sent_on l [a] = [] ∧ received_on l [a] = [] := by
  unfold cleanup
  split_ifs <;> simp [recv_rooms, sent_on, received_on]

theorem cleanup_nodup (info : proxy_info) : (cleanup info).Nodup := by
  unfold cleanup
  split_ifs <;> simp

theorem cleanup_closes (info : proxy_info) :
    ∀ a ∈ cleanup info, ∃ l fd, a = Action.close l fd := by
  unfold cleanup
  split_ifs <;> simp

/-- C8: when one of the establishment steps fails in a session started by
`main` (client descriptor valid, server descriptor not yet opened), `proxy`
returns through `cleanup` whatever the trace offers: its log is the
establishment calls made up to the failing one followed by the closes; it
contains no receive and no send; no call occurs twice; the client descriptor
is closed; and the server descriptor is closed exactly when the `socket` call
was made and returned a descriptor. -/
theorem establish_failure_cleans_up (K : sctp_consts) (info : proxy_info) (env : estab_env)
    (trace : List recv_event)
    (hfail : some_step_fails info env) (hcfd : 0 ≤ info.client_fd)
    (hsfd : info.server_fd < 0) :
    proxy K info env trace =
      ⟨(establish info env).log ++
        ((if Action.socket (!info.ipv4only) ∈ (establish info env).log ∧ 0 ≤ env.socket_ret
          then [Action.close Leg.server env.socket_ret] else []) ++
         [Action.close Leg.client info.client_fd]), true⟩ ∧
    (∃ rest, (establish info env).log ++ rest = establish_steps info env) ∧
    recv_rooms (proxy K info env trace).log = [] ∧
    (∀ l, sent_on l (proxy K info env trace).log = [] ∧
          received_on l (proxy K info env trace).log = []) ∧
    (proxy K info env trace).log.Nodup := by
  have hok : (establish info env).ok = false := (establish_fails_iff info env).mpr hfail
  obtain ⟨⟨rest, hpre⟩, hc, hs, _⟩ := establish_log_facts info env
  have hmem : ∀ a ∈ (establish info env).log, a ∈ establish_steps info env := by
    intro a ha
    rw [← hpre]
    exact List.mem_append_left _ ha
  have hproxy : proxy K info env trace =
      ⟨(establish info env).log ++ cleanup (establish info env).info, true⟩ := by
    simp [proxy, hok]
  have hclean : cleanup (establish info env).info =
      (if Action.socket (!info.ipv4only) ∈ (establish info env).log ∧ 0 ≤ env.socket_ret
        then [Action.close Leg.server env.socket_ret] else []) ++
       [Action.close Leg.client info.client_fd] := by
    unfold cleanup
    rw [hc, hs]
    by_cases hm : Action.socket (!info.ipv4only) ∈ (establish info env).log
    · by_cases hr : 0 ≤ env.socket_ret <;> simp [hm, hr, hcfd]
    · have : ¬ info.server_fd ≥ 0 := by omega
      simp [hm, hcfd, this]
  have hio := no_io_list ((establish info env).log ++ cleanup (establish info env).info)
    (by
      intro a ha
      rcases List.mem_append.mp ha with ha | ha
      · exact (establish_steps_no_io info env a (hmem a ha)).2
      · exact cleanup_no_io _ a ha)
  have hnd : ((establish info env).log ++ cleanup (establish info env).info).Nodup := by
    rw [List.nodup_append]
    refine ⟨?_, cleanup_nodup _, ?_⟩
    · have := establish_steps_nodup info env
      rw [← hpre] at this
      exact (List.nodup_append.mp this).1
    · intro a ha hb
      obtain ⟨l, fd, rfl⟩ := cleanup_closes _ a hb
      exact (establish_steps_no_io info env _ (hmem _ ha)).1 l fd rfl
  refine ⟨?_, ⟨rest, hpre⟩, ?_, ?_, ?_⟩
  · rw [hproxy, hclean]
  · rw [hproxy]; exact hio.1
  · rw [hproxy]; exact hio.2
  · rw [hproxy]; exact hnd

/-- C8, when the connect to the backend fails. -/
theorem establish_failure_cleans_up_witness :
    some_step_fails sample_info connect_fails_env ∧ 0 ≤ sample_info.client_fd ∧
    sample_info.server_fd < 0 ∧
    proxy linux_consts sample_info connect_fails_env sample_trace =
      ⟨(establish sample_info connect_fails_env).log ++
        ((if Action.socket (!sample_info.ipv4only) ∈ (establish sample_info connect_fails_env).log ∧
              0 ≤ connect_fails_env.socket_ret
          then [Action.close Leg.server connect_fails_env.socket_ret] else []) ++
         [Action.close Leg.client sample_info.client_fd]), true⟩ :=
  ⟨by decide, by decide, by decide,
    (establish_failure_cleans_up linux_consts sample_info connect_fails_env sample_trace
      (by decide) (by decide) (by decide)).1⟩

theorem establish_sets_initmsg (info : proxy_info) (env : estab_env)
    (hest : (establish info env).ok = true) :
    Action.setsockopt_initmsg env.socket_ret
        ⟨env.status.sstat_instrms, env.status.sstat_outstrms, 0, 0⟩ ∈
      (establish info env).log := by
  by_cases h1 : env.getsockopt_ret < 0
  · simp [establish, h1] at hest
  by_cases h2 : env.malloc_client_ok = true
  swap
  · simp [establish, h1, h2] at hest
  by_cases h3 : env.malloc_server_ok = true
  swap
  · simp [establish, h1, h2, h3] at hest
  by_cases h4 : env.socket_ret < 0
  · simp [establish, h1, h2, h3, h4] at hest
  by_cases h5 : env.setsockopt_v6only_ret < 0 <;>
  by_cases h6 : env.setsockopt_initmsg_ret < 0 <;>
  by_cases h7 : env.sctp_bindx_ret < 0 <;>
  by_cases h8 : env.sctp_connectx_ret < 0 <;>
  cases hv : info.ipv4only <;>
  first
  | (simp [establish, h1, h2, h3, h4, h5, h6, h7, h8, hv] at hest; done)
  | simp [establish, server_initmsg, h1, h2, h3, h4, h5, h6, h7, h8, hv]

/-- C9: whatever stream counts the client association's status reports, a
`setsockopt(SCTP_INITMSG)` made during establishment is made on the server
socket with `sinit_num_ostreams` the client's inbound count,
`sinit_max_instreams` the client's outbound count, and the two other fields
zero. -/
theorem server_initmsg_swaps_streams (info : proxy_info) (env : estab_env) (fd : Int)
    (m : sctp_initmsg)
    (h : Action.setsockopt_initmsg fd m ∈ (establish info env).log) :
    fd = env.socket_ret ∧
      m = ⟨env.status.sstat_instrms, env.status.sstat_outstrms, 0, 0⟩ := by
  obtain ⟨⟨rest, hpre⟩, _⟩ := establish_log_facts info env
  have hm : Action.setsockopt_initmsg fd m ∈ establish_steps info env := by
    rw [← hpre]
    exact List.mem_append_left _ h
  cases hv : info.ipv4only <;>
    simp [establish_steps, hv, server_initmsg] at hm <;>
    exact hm

/-- C9, for a client with 3 inbound and 4 outbound streams. -/
theorem server_initmsg_swaps_streams_witness :
    Action.setsockopt_initmsg 6 ⟨3, 4, 0, 0⟩ ∈ (establish sample_info sample_env).log ∧
    (6 : Int) = sample_env.socket_ret ∧
    (⟨3, 4, 0, 0⟩ : sctp_initmsg) =
      ⟨sample_env.status.sstat_instrms, sample_env.status.sstat_outstrms, 0, 0⟩ :=
  ⟨by decide, server_initmsg_swaps_streams sample_info sample_env 6 ⟨3, 4, 0, 0⟩ (by decide)⟩

/-! ## C5: a message larger than the initial buffer -/

theorem along_mono (K : sctp_consts) (P Q : proxy_info → recv_event → Prop)
    (hPQ : ∀ i e, P i e → Q i e) (info : proxy_info) (trace : List recv_event)
    (h : along K P info trace) : along K Q info trace :=
  fun p hp => hPQ p.1 p.2 (h p hp)

theorem visited_all (K : sctp_consts) :
    ∀ (trace : List recv_event) (info : proxy_info), (pump K info trace).closed = false →
      (visited K info trace).map Prod.snd = trace := by
  intro trace
  induction trace with
  | nil => intro info _; rfl
  | cons ev rest ih =>
    intro info hc
    cases hnext : (pump_step K info ev).next with
    | none => simp [pump, hnext] at hc
    | some info1 =>
      simp only [pump, hnext] at hc
      simp only [visited, hnext, List.map_cons, ih info1 hc]

theorem concat_data_append (a b : List recv_event) :
    concat_data (a ++ b) = concat_data a ++ concat_data b := by
  induction a with
  | nil => rfl
  | cons x xs ih => simp [concat_data, ih]

theorem relayed_message (K : sctp_consts) (last : recv_event)
    (hlast : last.flags &&& K.MSG_EOR ≠ 0) :
    ∀ (body : List recv_event) (pending : List Nat),
      (∀ ev ∈ body, ev.flags &&& K.MSG_EOR = 0) →
      relayed K pending ((body ++ [last]).map chunk_of) =
        [⟨pending ++ concat_data (body ++ [last]), last.sinfo_stream,
          last.sinfo_flags &&& K.SCTP_UNORDERED, last.sinfo_ppid⟩] := by
  intro body
  induction body with
  | nil =>
    intro pending _
    simp [relayed, chunk_of, chunk.eor, concat_data, hlast]
  | cons ev rest ih =>
    intro pending hb
    have he : ev.flags &&& K.MSG_EOR = 0 := hb ev (List.mem_cons_self _ _)
    have := ih (pending ++ ev.data) (fun e h => hb e (List.mem_cons_of_mem _ h))
    simp only [List.cons_append, List.map_cons, relayed]
    simp [chunk_of, chunk.eor, he, concat_data] at this ⊢
    exact this

theorem non_eor_step (K : sctp_consts) (info : proxy_info) (ev : recv_event)
    (hok : leg_ok ev.leg info) (hd : delivers_chunk info ev)
    (heor : ev.flags &&& K.MSG_EOR = 0) (hre : ev.realloc_ok = true)
    (hsmall : leg_offset ev.leg info + ev.data.length < 2 ^ 62) :
    ∃ info1, (pump_step K info ev).next = some info1 ∧
      leg_offset ev.leg info1 = leg_offset ev.leg info + ev.data.length := by
  obtain ⟨hn, hroom, hlen⟩ := hd
  have ha := size_add_eq _ _ ev.n (Nat.le_of_lt hok.1) hok.2 hroom
  have hlen2 : ev.n.toNat = ev.data.length := by omega
  rw [hlen2] at ha
  have hn1 : ¬ ev.n < 0 := by omega
  have hn2 : ¬ ev.n = 0 := by omega
  rw [pump_step_eq]
  simp only [hn1, hn2, heor, if_false, ne_eq, not_true_eq_false]
  by_cases hfull : size_add (leg_offset ev.leg info) ev.n = leg_size ev.leg info
  · have hre2 : realloc_succeeds (size_double (leg_size ev.leg info)) ev.realloc_ok = true := by
      rw [size_double_eq _ hok.2]
      simp only [realloc_succeeds, hre, Bool.true_and, decide_eq_true_eq]
      have h62 : (2 : Nat) ^ 62 = 4611686018427387904 := by norm_num
      have : PTRDIFF_MAX = 9223372036854775807 := by norm_num [PTRDIFF_MAX]
      omega
    simp only [hfull, hre2, if_true]
    exact ⟨_, rfl, by rw [leg_offset_update_same]; omega⟩
  · simp only [hfull, if_false]
    exact ⟨_, rfl, by rw [leg_offset_update_same]; omega⟩

theorem pump_message (K : sctp_consts) (l : Leg) (last : recv_event)
    (hlast : last.leg = l ∧ last.flags &&& K.MSG_EOR ≠ 0 ∧ 0 ≤ last.send_ret) :
    ∀ (body : List recv_event) (info : proxy_info),
      (∀ l1, leg_ok l1 info) →
      (∀ ev ∈ body, ev.leg = l ∧ ev.flags &&& K.MSG_EOR = 0 ∧ ev.realloc_ok = true) →
      along K delivers_chunk info (body ++ [last]) →
      leg_offset l info + (concat_data (body ++ [last])).length < 2 ^ 62 →
      (pump K info (body ++ [last])).closed = false ∧
        leg_offset l (pump K info (body ++ [last])).info = 0 ∧
        leg_offset l info + (concat_data (body ++ [last])).length ≤
          leg_size l (pump K info (body ++ [last])).info := by
  obtain ⟨hl, heor, hsend⟩ := hlast
  intro body
  induction body with
  | nil =>
    intro info hok _ hal _
    have hd := along_head K _ info last [] hal
    obtain ⟨info1, hnext⟩ : ∃ info1, (pump_step K info last).next = some info1 := by
      obtain ⟨i1, h1, _⟩ := eor_step_resets_offset K info last hd.1 heor hsend
      exact ⟨i1, h1⟩
    obtain ⟨ho, hsz, _⟩ := leg_ok_after_reset K info info1 last hd.1 heor hsend hnext
    obtain ⟨hn, hroom, hlen⟩ := hd
    have ha := size_add_eq _ _ last.n (Nat.le_of_lt (hok last.leg).1) (hok last.leg).2 hroom
    subst hl
    simp only [List.nil_append, pump, hnext, concat_data, List.append_nil]
    refine ⟨trivial, ho, ?_⟩
    rw [hsz]
    omega
  | cons ev rest ih =>
    intro info hok hb hal hsmall
    obtain ⟨hel, heeor, here⟩ := hb ev (List.mem_cons_self _ _)
    have hd := along_head K _ info ev (rest ++ [last]) hal
    have hcd : concat_data (ev :: (rest ++ [last])) = ev.data ++ concat_data (rest ++ [last]) :=
      rfl
    rw [List.cons_append, hcd, List.length_append] at hsmall ⊢
    obtain ⟨info1, hnext, hoff⟩ := non_eor_step K info ev (hok ev.leg) hd heeor here
      (by rw [hel]; omega)
    have hok1 : ∀ l1, leg_ok l1 info1 :=
      fun l1 => (leg_ok_step K info info1 ev l1 (hok l1) hd.2.1 hnext).1
    rw [hel] at hoff
    have h := ih info1 hok1 (fun e he => hb e (List.mem_cons_of_mem _ he))
      (along_tail K _ info info1 ev (rest ++ [last]) hnext hal)
      (by rw [hoff]; omega)
    simp only [pump, hnext]
    rw [hoff] at h
    refine ⟨h.1, h.2.1, ?_⟩
    have := h.2.2
    omega

/-- C5: a message delivered to leg `l` as any sequence of chunks (all but the
last without end-of-record, each within the room it was given), of total
length `L < 2^62`, with the send and every `realloc` the environment is asked
for succeeding.  From the established state the loop stays running, makes
exactly one send on the other leg, whose payload is the `L` bytes of the
message in order and whose stream, unordered bit and payload identifier are
those of the last chunk; afterwards the capacity of that buffer is at least
`L` and is `10240 * 2^k` for some `k`, and its offset is 0.  Moreover, after
any trace that respects the receive room, the capacity of each buffer is
`10240 * 2^k` for some `k`, and from any state within the buffer bounds no
trace makes a capacity smaller. -/
theorem pump_relays_large_message (K : sctp_consts) (info : proxy_info) (env : estab_env)
    (body : List recv_event) (last : recv_event) (l : Leg)
    (hest : (establish info env).ok = true)
    (hbody : ∀ ev ∈ body, ev.leg = l ∧ ev.flags &&& K.MSG_EOR = 0 ∧ ev.realloc_ok = true)
    (hlast : last.leg = l ∧ last.flags &&& K.MSG_EOR ≠ 0 ∧ 0 ≤ last.send_ret)
    (hchunks : along K delivers_chunk (establish info env).info (body ++ [last]))
    (hL : (concat_data (body ++ [last])).length < 2 ^ 62) :
    (pump K (establish info env).info (body ++ [last])).closed = false ∧
    sent_on l.other (pump K (establish info env).info (body ++ [last])).log =
      [⟨concat_data (body ++ [last]), last.sinfo_stream,
        last.sinfo_flags &&& K.SCTP_UNORDERED, last.sinfo_ppid⟩] ∧
    (concat_data (body ++ [last])).length ≤
      leg_size l (pump K (establish info env).info (body ++ [last])).info ∧
    (∃ k, leg_size l (pump K (establish info env).info (body ++ [last])).info =
      INITIAL_BUF_SIZE * 2 ^ k) ∧
    leg_offset l (pump K (establish info env).info (body ++ [last])).info = 0 ∧
    (∀ trace, along K within_room (establish info env).info trace →
      ∀ l1, ∃ k, leg_size l1 (pump K (establish info env).info trace).info =
        INITIAL_BUF_SIZE * 2 ^ k) ∧
    (∀ s trace, (∀ l1, leg_ok l1 s) → along K within_room s trace →
      ∀ l1, leg_size l1 s ≤ leg_size l1 (pump K s trace).info) := by
  have h0 := establish_leg_ok info env hest
  have hok : ∀ l1, leg_ok l1 (establish info env).info := fun l1 => (h0 l1).2.2
  have hwr : ∀ s trace, along K delivers_chunk s trace → along K within_room s trace :=
    fun s trace => along_mono K _ _ (fun _ _ h => h.2.1) s trace
  have hpow : ∀ trace, along K within_room (establish info env).info trace →
      ∀ l1, ∃ k, leg_size l1 (pump K (establish info env).info trace).info =
        INITIAL_BUF_SIZE * 2 ^ k := by
    intro trace hal l1
    obtain ⟨_, _, j, hj⟩ := (pump_bounds K trace _ hok hal).1 l1
    exact ⟨j, by rw [hj, (h0 l1).2.1]⟩
  obtain ⟨hrun, hoff, hcap⟩ := pump_message K l last hlast body _ hok hbody hchunks
    (by rw [(h0 l).1]; omega)
  rw [(h0 l).1, Nat.zero_add] at hcap
  have hrel := pump_relays K l (body ++ [last]) _ hok hchunks
  rw [(h0 l).1, buf_read_zero, pump_received K l _ _ hchunks] at hrel
  have hall : ∀ ev ∈ body ++ [last], decide (ev.leg = l) = true := by
    intro ev hev
    rcases List.mem_append.mp hev with h | h
    · simpa using (hbody ev h).1
    · simp only [List.mem_singleton] at h
      subst h
      simpa using hlast.1
  have hproc : chunks_processed K l (establish info env).info (body ++ [last]) =
      (body ++ [last]).map chunk_of := by
    unfold chunks_processed
    rw [visited_all K _ _ hrun, List.filter_eq_self.mpr hall]
  rw [hproc, relayed_message K last hlast.2.1 body [] (fun ev h => (hbody ev h).2.1),
    List.nil_append] at hrel
  refine ⟨hrun, hrel, hcap, hpow _ (hwr _ _ hchunks) l, hoff, hpow, ?_⟩
  intro s trace hs hal l1
  exact ((pump_bounds K trace s hs hal).1 l1).2.1

/-! ### A 25600-byte message -/
theorem along_cons_iff (K : sctp_consts) (P : proxy_info → recv_event → Prop)
    (info : proxy_info) (ev : recv_event) (rest : List recv_event) :
    along K P info (ev :: rest) ↔
      P info ev ∧ ∀ info1, (pump_step K info ev).next = some info1 → along K P info1 rest := by
  constructor
  · intro h
    exact ⟨along_head K P info ev rest h, fun info1 h1 => along_tail K P info info1 ev rest h1 h⟩
  · rintro ⟨h1, h2⟩ p hp
    cases hnext : (pump_step K info ev).next with
    | none =>
      simp only [visited, hnext, List.mem_singleton] at hp
      subst hp
      exact h1
    | some info1 =>
      simp only [visited, hnext, List.mem_cons] at hp
      rcases hp with hp | hp
      · subst hp
        exact h1
      · exact h2 info1 hnext p hp

theorem non_eor_step_sizes (K : sctp_consts) (info info1 : proxy_info) (ev : recv_event)
    (hok : leg_ok ev.leg info) (hd : delivers_chunk info ev)
    (heor : ev.flags &&& K.MSG_EOR = 0)
    (hnext : (pump_step K info ev).next = some info1) :
    leg_offset ev.leg info1 = leg_offset ev.leg info + ev.data.length ∧
      leg_size ev.leg info1 =
        if leg_offset ev.leg info + ev.data.length = leg_size ev.leg info
        then 2 * leg_size ev.leg info else leg_size ev.leg info := by
  obtain ⟨hn, hroom, hlen⟩ := hd
  have ha := size_add_eq _ _ ev.n (Nat.le_of_lt hok.1) hok.2 hroom
  have hlen2 : ev.n.toNat = ev.data.length := by omega
  rw [hlen2] at ha
  have hn1 : ¬ ev.n < 0 := by omega
  have hn2 : ¬ ev.n = 0 := by omega
  rw [pump_step_eq] at hnext
  simp only [hn1, hn2, heor, if_false, ne_eq, not_true_eq_false, ha.1,
    size_double_eq _ hok.2] at hnext
  split_ifs at hnext with h1 h2 <;> simp only [Option.some.injEq] at hnext <;> subst hnext <;>
    simp [leg_offset_update_same, leg_size_update_same, h1]

theorem sample_chunk_length (l : Leg) (k v f : Nat) :
    (sample_chunk l (List.replicate k v) f).data.length = k ∧
    (sample_chunk l (List.replicate k v) f).n = (k : Int) ∧
    (sample_chunk l (List.replicate k v) f).leg = l ∧
    (sample_chunk l (List.replicate k v) f).flags = f := by
  simp [sample_chunk]

theorem big_message_chunks :
    along linux_consts delivers_chunk (establish sample_info sample_env).info
      (big_body ++ [big_last]) := by
  have hest : (establish sample_info sample_env).ok = true := by decide
  obtain ⟨ho0, hs0, hok0⟩ := establish_leg_ok sample_info sample_env hest Leg.client
  obtain ⟨e1, e2, e3, e4⟩ := sample_chunk_length Leg.client 10240 7 0
  obtain ⟨f1, f2, f3, f4⟩ := sample_chunk_length Leg.client 10240 8 0
  obtain ⟨g1, g2, g3, g4⟩ := sample_chunk_length Leg.client 5120 9 0x80
  have hd1 : delivers_chunk (establish sample_info sample_env).info
      (sample_chunk Leg.client (List.replicate 10240 7) 0) := by
    unfold delivers_chunk leg_room
    rw [e1, e2, e3, ho0, hs0]
    norm_num [size_sub, SIZE_MOD, INITIAL_BUF_SIZE]
  have heor1 : (sample_chunk Leg.client (List.replicate 10240 7) 0).flags &&&
      linux_consts.MSG_EOR = 0 := by rw [e4]; decide
  have heor2 : (sample_chunk Leg.client (List.replicate 10240 8) 0).flags &&&
      linux_consts.MSG_EOR = 0 := by rw [f4]; decide
  unfold big_body big_last
  rw [List.cons_append, List.cons_append, List.nil_append, along_cons_iff]
  refine ⟨hd1, fun info1 h1 => ?_⟩
  obtain ⟨ho1, hs1⟩ := non_eor_step_sizes _ _ _ _ (by rw [e3]; exact hok0) hd1 heor1 h1
  have hok1 := (leg_ok_step _ _ _ _ Leg.client hok0 hd1.2.1 h1).1
  simp only [e1, e3, ho0, hs0] at ho1 hs1
  norm_num [INITIAL_BUF_SIZE] at ho1 hs1
  have hd2 : delivers_chunk info1 (sample_chunk Leg.client (List.replicate 10240 8) 0) := by
    unfold delivers_chunk leg_room
    rw [f1, f2, f3, ho1, hs1]
    norm_num [size_sub, SIZE_MOD]
  rw [along_cons_iff]
  refine ⟨hd2, fun info2 h2 => ?_⟩
  obtain ⟨ho2, hs2⟩ := non_eor_step_sizes _ _ _ _ (by rw [f3]; exact hok1) hd2 heor2 h2
  simp only [f1, f3, ho1, hs1] at ho2 hs2
  norm_num at ho2 hs2
  have hd3 : delivers_chunk info2 (sample_chunk Leg.client (List.replicate 5120 9) 0x80) := by
    unfold delivers_chunk leg_room
    rw [g1, g2, g3, ho2, hs2]
    norm_num [size_sub, SIZE_MOD]
  rw [along_cons_iff]
  refine ⟨hd3, fun info3 _ => ?_⟩
  intro p hp
  simp [visited] at hp

theorem big_body_flags :
    ∀ ev ∈ big_body,
      ev.leg = Leg.client ∧ ev.flags &&& linux_consts.MSG_EOR = 0 ∧ ev.realloc_ok = true := by
  intro ev hev
  simp only [big_body, List.mem_cons, List.mem_singleton, List.not_mem_nil, or_false] at hev
  rcases hev with h | h <;> subst h <;> exact ⟨rfl, by decide, rfl⟩

theorem big_last_flags :
    big_last.leg = Leg.client ∧ big_last.flags &&& linux_consts.MSG_EOR ≠ 0 ∧
      0 ≤ big_last.send_ret :=
  ⟨rfl, by decide, by decide⟩

theorem big_message_length : (concat_data (big_body ++ [big_last])).length = 25600 := by
  unfold big_body big_last
  rw [List.cons_append, List.cons_append, List.nil_append]
  simp only [concat_data, List.length_append, List.length_nil,
    (sample_chunk_length Leg.client 10240 7 0).1, (sample_chunk_length Leg.client 10240 8 0).1,
    (sample_chunk_length Leg.client 5120 9 0x80).1]

/-- C5, for a message of 25600 bytes delivered as 10240 + 10240 + 5120. -/
theorem pump_relays_large_message_witness :
    (establish sample_info sample_env).ok = true ∧
    (∀ ev ∈ big_body,
      ev.leg = Leg.client ∧ ev.flags &&& linux_consts.MSG_EOR = 0 ∧ ev.realloc_ok = true) ∧
    (big_last.leg = Leg.client ∧ big_last.flags &&& linux_consts.MSG_EOR ≠ 0 ∧
      0 ≤ big_last.send_ret) ∧
    along linux_consts delivers_chunk (establish sample_info sample_env).info
      (big_body ++ [big_last]) ∧
    (concat_data (big_body ++ [big_last])).length = 25600 ∧
    sent_on Leg.client.other (pump linux_consts (establish sample_info sample_env).info
        (big_body ++ [big_last])).log =
      [⟨concat_data (big_body ++ [big_last]), big_last.sinfo_stream,
        big_last.sinfo_flags &&& linux_consts.SCTP_UNORDERED, big_last.sinfo_ppid⟩] ∧
    (concat_data (big_body ++ [big_last])).length ≤
      leg_size Leg.client (pump linux_consts (establish sample_info sample_env).info
        (big_body ++ [big_last])).info ∧
    (∃ k, leg_size Leg.client (pump linux_consts (establish sample_info sample_env).info
        (big_body ++ [big_last])).info = INITIAL_BUF_SIZE * 2 ^ k) :=
  ⟨by decide, big_body_flags, big_last_flags, big_message_chunks, big_message_length,
    (pump_relays_large_message linux_consts sample_info sample_env big_body big_last Leg.client
      (by decide) big_body_flags big_last_flags big_message_chunks
      (by rw [big_message_length]; norm_num)).2.1,
    (pump_relays_large_message linux_consts sample_info sample_env big_body big_last Leg.client
      (by decide) big_body_flags big_last_flags big_message_chunks
      (by rw [big_message_length]; norm_num)).2.2.1,
    (pump_relays_large_message linux_consts sample_info sample_env big_body big_last Leg.client
      (by decide) big_body_flags big_last_flags big_message_chunks
      (by rw [big_message_length]; norm_num)).2.2.2.1⟩

/-! ## C10: the count returned by `parse_addrs_list` -/

theorem resolve_tokens_total
    (getaddrinfo : List Char → List Char → addrinfo_hints → Option sockaddr)
    (hres : ∀ a p h, ∃ sa, getaddrinfo a p h = some sa) (port : List Char)
    (hints : addrinfo_hints) :
    ∀ tokens : List (List Char),
      (resolve_tokens getaddrinfo port hints tokens).2 = true ∧
      (resolve_tokens getaddrinfo port hints tokens).1.length = tokens.length := by
  intro tokens
  induction tokens with
  | nil => exact ⟨rfl, rfl⟩
  | cons t rest ih =>
    obtain ⟨sa, hsa⟩ := hres t port hints
    simp only [resolve_tokens, hsa, List.length_cons]
    exact ⟨ih.1, by rw [ih.2]⟩

/-- When every token resolves, `parse_addrs_list` returns the number of
commas plus one and writes one address per token that `strtok` yields. -/
theorem parse_addrs_list_all_resolve
    (getaddrinfo : List Char → List Char → addrinfo_hints → Option sockaddr)
    (hres : ∀ a p h, ∃ sa, getaddrinfo a p h = some sa)
    (addr_list port : List Char) (ipv4only ipv6only : Bool) :
    (parse_addrs_list getaddrinfo (some addr_list) (some port) ipv4only ipv6only).1 =
      count_addrs addr_list ∧
    (parse_addrs_list getaddrinfo (some addr_list) (some port) ipv4only ipv6only).2.length =
      (strtok_tokens addr_list []).length := by
  unfold parse_addrs_list
  have h := resolve_tokens_total getaddrinfo hres port
    ⟨if ipv4only then addr_family.AF_INET else addr_family.AF_INET6, !ipv4only && !ipv6only⟩
    (strtok_tokens addr_list [])
  simp only [h.1, if_true]
  exact ⟨trivial, h.2⟩

/-- C10 (the code at the failing inputs): with every token resolving,
`parse_addrs_list` returns 2 for `"::1,"` but writes one address, returns 1
for the empty string but writes none, and returns 3 for `"a,,b"` but writes
two; and `main`, given `-X ::1,`, reaches the accept loop with
`number_local_addrs = 2` for a one-element `local_addrs`. -/
theorem parse_addrs_list_count_exceeds_written :
    parse_addrs_list sample_main_env.getaddrinfo (some [':', ':', '1', ',']) (some ['0'])
        false false = (2, [⟨[':', ':', '1'], ['0']⟩]) ∧
    parse_addrs_list sample_main_env.getaddrinfo (some []) (some ['0']) false false =
      (1, []) ∧
    parse_addrs_list sample_main_env.getaddrinfo (some ['a', ',', ',', 'b']) (some ['0'])
        false false = (3, [⟨['a'], ['0']⟩, ⟨['b'], ['0']⟩]) ∧
    main_startup sample_main_env
        [('L', [':', ':', '1', ':', '5', '0', '0', '1']), ('X', [':', ':', '1', ',']),
         ('S', [':', ':', '1', ':', '7'])] =
      Except.ok ⟨false, false, [⟨[':', ':', '1'], ['0']⟩], 2,
        [⟨[⟨[':', ':', '1'], ['7']⟩], 1⟩], 1⟩ := by
  refine ⟨by decide, by decide, by decide, by rfl⟩

/-! ## C3: a command line without `-S` -/

/-- C3 (the code at the failing input): for the command line
`proxy -L ::1:5001 -X ::1`, with every call succeeding, `main` does not
return 1 but reaches the accept loop with `number_servers = 0` and an empty
`server_infos`; on the first accepted association `select_a_server` is called
with `number_servers = 0` and reads index 0, which is outside the array. -/
theorem main_accepts_empty_server_list :
    main_startup sample_main_env no_server_opts =
      Except.ok ⟨false, false, [⟨[':', ':', '1'], ['0']⟩], 1, [], 0⟩ ∧
    (accept_loop ⟨false, false, [⟨[':', ':', '1'], ['0']⟩], 1, [], 0⟩ 0 [⟨5, 0⟩]).selects =
      [(0, ⟨0, none, 1⟩)] ∧
    (accept_loop ⟨false, false, [⟨[':', ':', '1'], ['0']⟩], 1, [], 0⟩ 0 [⟨5, 0⟩]).defined =
      false := by
  refine ⟨by rfl, by decide, by decide⟩

end SctpProxy
